import Mathlib

/-!
# Verification of the openforcefield molecular data model and toolkit dispatch

Shallow embedding of `openforcefield/topology/molecule.py` (the
`Atom`/`Bond`/`VirtualSite`/`FrozenMolecule`/`Molecule` data model) and of
`openforcefield/utils/toolkits.py` (`ToolkitRegistry.call`).

Numeric quantities (distances, angles, charges, coordinates) are modelled as
rationals expressed in the code's fixed internal units (angstrom, degree,
elementary charge, kilojoule per mole); unit-compatibility assertions of the
source, which always succeed on unit-normalised values, are not modelled.
Python exceptions are modelled with `Except String`.
-/

namespace OpenFF

/-- A row of a conformer coordinate array: one 3D position (angstrom). -/
structure Vec3 where
  x : ℚ
  y : ℚ
  z : ℚ
deriving DecidableEq, Repr

/-- The per-atom state stored by `Atom.__init__` (molecule back-reference and
bond/vsite back-reference lists are represented by the owning molecule's
index-based lists instead of object references).
`Atom.__init__` replaces a `None` name by the empty string. -/
structure AtomSpec where
  atomic_number : ℕ
  formal_charge : ℤ
  is_aromatic : Bool
  stereochemistry : Option String
  name : String
deriving DecidableEq, Repr

/-- The per-bond state stored by `Bond.__init__`; the two atom references are
modelled by molecule atom indices (`Bond.to_dict` serialises exactly these
indices via `molecule_atom_index`). -/
structure BondSpec where
  atom1 : ℕ
  atom2 : ℕ
  bond_order : ℕ
  is_aromatic : Bool
  stereochemistry : Option String
  fractional_bond_order : Option ℚ
deriving DecidableEq, Repr

/-- The four concrete `VirtualSite` subclasses. -/
inductive VSiteKind where
  | bondCharge
  | monovalentLonePair
  | divalentLonePair
  | trivalentLonePair
deriving DecidableEq, Repr

/-- State stored by the `VirtualSite` subclasses.  `out_of_plane_angle` and
`in_plane_angle` exist only on the lone-pair subclasses; `none` models the
attribute being absent (the `BondChargeVirtualSite` case). -/
structure VSiteSpec where
  kind : VSiteKind
  atoms : List ℕ
  charge_increments : Option (List ℚ)
  epsilon : Option ℚ
  sigma : Option ℚ
  name : Option String
  distance : ℚ
  out_of_plane_angle : Option ℚ
  in_plane_angle : Option ℚ
deriving DecidableEq, Repr

/-- Canonicalised angle / torsion tuples are sets of atom-index tuples
(the source stores Python sets of `Atom`-object tuples). -/
abbrev AngleT := ℕ × ℕ × ℕ
abbrev TorsionT := ℕ × ℕ × ℕ × ℕ

/-- The lazily-created cached attributes of `FrozenMolecule`.
In the source these are plain instance attributes created on demand:
`_bondedAtoms` (by `_construct_bonded_atoms_list`), `_angles`
(by `_construct_angles`), and `_torsions`/`_propers`/`_impropers`
(by `_construct_torsions`; `_propers`/`_impropers` are also *assigned* `None`
by `_invalidate_cached_properties`).  An outer `none` models the attribute not
existing (`hasattr` false); for `propers`/`impropers` the inner `Option`
models a Python value of `None` versus a computed set. -/
structure DerivedCache where
  bondedAtoms : Option (Finset (ℕ × ℕ)) := none
  angles : Option (Finset AngleT) := none
  torsionsPresent : Bool := false
  propers : Option (Option (Finset TorsionT)) := none
  impropers : Option (Option (Finset TorsionT)) := none
deriving DecidableEq

/-- The state of a `FrozenMolecule`/`Molecule` (fields set by `_initialize`,
plus the lazily-created cache attributes).  `_cached_smiles` is not modelled:
no claim mentions it and it is only read by toolkit-backed SMILES export. -/
structure OFFMol where
  name : String := ""
  atoms : List AtomSpec := []
  virtual_sites : List VSiteSpec := []
  bonds : List BondSpec := []
  properties : List (String × String) := []
  partial_charges : Option (List ℚ) := none
  conformers : Option (List (List Vec3)) := none
  cache : DerivedCache := {}
deriving DecidableEq

/-- A Python `for` loop threading a molecule-building state, where the body
may raise: stops at the first exception. -/
def foldE {α β : Type} (f : β → α → Except String β) :
    β → List α → Except String β
  | acc, [] => .ok acc
  | acc, x :: xs =>
      match f acc x with
      | .error e => .error e
      | .ok b => foldE f b xs

/-- `FrozenMolecule._invalidate_cached_properties`: clears conformers, partial
charges and sets `_propers`/`_impropers` to `None`.  Note that it does NOT
delete the `_angles`, `_torsions` or `_bondedAtoms` attributes. -/
def invalidateCachedProperties (m : OFFMol) : OFFMol :=
  { m with
    conformers := none
    partial_charges := none
    cache := { m.cache with propers := some none, impropers := some none } }

/-- `Atom.is_bonded_to` (via the atom's bond back-references, which for a
molecule-owned atom list the bonds of the molecule incident to it). -/
def isBondedTo (m : OFFMol) (i j : ℕ) : Bool :=
  m.bonds.any fun b =>
    (b.atom1 == i && b.atom2 == j) || (b.atom1 == j && b.atom2 == i)

/-- `FrozenMolecule._add_atom` (also `Molecule.add_atom`, which forwards to
it): creates the `Atom` (a `None` name becomes `''`), appends it, invalidates
cached properties, and returns the new atom's index. -/
def addAtom (m : OFFMol) (atomic_number : ℕ) (formal_charge : ℤ)
    (is_aromatic : Bool) (stereochemistry : Option String := none)
    (name : Option String := none) : OFFMol × ℕ :=
  let atom : AtomSpec :=
    { atomic_number := atomic_number
      formal_charge := formal_charge
      is_aromatic := is_aromatic
      stereochemistry := stereochemistry
      name := name.getD "" }
  (invalidateCachedProperties { m with atoms := m.atoms ++ [atom] },
   m.atoms.length)

/-- `FrozenMolecule._add_bond` (also `Molecule.add_bond`), on atom indices:
looks the two atoms up (an out-of-range index raises `IndexError`), asserts
they are distinct (`Atom.is_bonded_to` begins with `assert self != atom2`),
rejects an existing bond, then constructs the `Bond`, appends it, invalidates
cached properties and returns the bond index. -/
def addBond (m : OFFMol) (atom1 atom2 : ℕ) (bond_order : ℕ)
    (is_aromatic : Bool) (stereochemistry : Option String := none)
    (fractional_bond_order : Option ℚ := none) :
    Except String (OFFMol × ℕ) :=
  if atom1 < m.atoms.length then
    if atom2 < m.atoms.length then
      if atom1 = atom2 then
        .error "AssertionError: Atom.is_bonded_to called with the same atom"
      else if isBondedTo m atom1 atom2 then
        .error "Bond already exists"
      else
        let bond : BondSpec :=
          { atom1 := atom1
            atom2 := atom2
            bond_order := bond_order
            is_aromatic := is_aromatic
            stereochemistry := stereochemistry
            fractional_bond_order := fractional_bond_order }
        .ok (invalidateCachedProperties { m with bonds := m.bonds ++ [bond] },
             m.bonds.length)
    else .error "IndexError: list index out of range"
  else .error "IndexError: list index out of range"

/-- `FrozenMolecule._add_conformer` (also `Molecule.add_conformer`): rejects a
coordinate array whose shape differs from `(n_atoms, 3)` (rows are `Vec3`, so
only the row count can mismatch), appends the conformer (creating the list on
first use), and returns the new total number of conformers.  It does NOT call
`_invalidate_cached_properties`. -/
def addConformer (m : OFFMol) (coordinates : List Vec3) :
    Except String (OFFMol × ℕ) :=
  if coordinates.length = m.atoms.length then
    let confs := m.conformers.getD [] ++ [coordinates]
    .ok ({ m with conformers := some confs }, confs.length)
  else
    .error "molecule.add_conformer given input of the wrong shape"

/-- The floating-point constant `(2.0) / (2.0 ** (1.0 / 6.0))` used by
`VirtualSite.__init__` to convert `rmin_half` to `sigma`.  `2 ** (1/6)` is
irrational; it is modelled by a fixed rational approximation (no claim
depends on its numeric value, only on the data flow). -/
def rminHalfToSigma (r : ℚ) : ℚ := 2 * r * (8909 / 10000)

/-- The keyword arguments shared by all virtual-site constructors (the
`weights` argument is accepted by the source but never stored). -/
structure VSiteArgs where
  charge_increments : Option (List ℚ) := none
  epsilon : Option ℚ := none
  sigma : Option ℚ := none
  rmin_half : Option ℚ := none
  name : Option String := none
deriving DecidableEq, Repr

/-- The VdW-parameter co-requirement block of `VirtualSite.__init__`:
`epsilon` requires exactly one of `rmin_half`/`sigma` (an `rmin_half` is
converted to `sigma`); without `epsilon`, neither may be given. -/
def vdwSigma (a : VSiteArgs) : Except String (Option ℚ) :=
  match a.epsilon with
  | some _ =>
      match a.rmin_half, a.sigma with
      | some _, some _ =>
          .error "VirtualSite constructor given epsilon, rmin_half, and sigma"
      | none, none =>
          .error "VirtualSite constructor given epsilon but not given rmin_half or sigma"
      | some r, none => .ok (some (rminHalfToSigma r))
      | none, some s => .ok (some s)
  | none =>
      match a.rmin_half, a.sigma with
      | none, none => .ok (none : Option ℚ)
      | _, _ =>
          .error "VirtualSite constructor given rmin_half or sigma, but not epsilon"

/-- The tail of `VirtualSite.__init__` after the charge-increment check: the
VdW block, then the type-checking loop whose `atoms[1]` access raises
`IndexError` when fewer than two atoms are given. -/
def vsiteBaseInitTail (atoms : List ℕ) (a : VSiteArgs) :
    Except String (Option (List ℚ) × Option ℚ × Option ℚ × Option String) :=
  match vdwSigma a with
  | .error e => .error e
  | .ok sigma =>
      if 2 ≤ atoms.length then
        .ok (a.charge_increments, a.epsilon, sigma, a.name)
      else .error "IndexError: list index out of range"

/-- `VirtualSite.__init__` (the shared base constructor): checks that
`charge_increments` (when given) matches the atom count, checks the
epsilon/sigma/rmin_half co-requirements (converting `rmin_half` to `sigma`),
and accesses `atoms[1]` (raising `IndexError` when fewer than two atoms are
given).  Returns the stored `(charge_increments, epsilon, sigma, name)`. -/
def vsiteBaseInit (atoms : List ℕ) (a : VSiteArgs) :
    Except String (Option (List ℚ) × Option ℚ × Option ℚ × Option String) :=
  match a.charge_increments with
  | some ci =>
      if ci.length = atoms.length then vsiteBaseInitTail atoms a
      else .error "VirtualSite definition must have same number of charge_increments and atoms"
  | none => vsiteBaseInitTail atoms a

/-- `FrozenMolecule._add_bond_charge_virtual_site` (atom-index form): looks up
each atom index (out-of-range raises `IndexError`), runs the
`BondChargeVirtualSite` constructor (which has NO atom-count assertion beyond
the base class's `atoms[1]` access), appends the site, invalidates cached
properties, and returns the new site's index. -/
def addBondChargeVirtualSite (m : OFFMol) (atoms : List ℕ) (distance : ℚ)
    (a : VSiteArgs := {}) : Except String (OFFMol × ℕ) :=
  if atoms.all (· < m.atoms.length) then
    match vsiteBaseInit atoms a with
    | .error e => .error e
    | .ok (ci, eps, sig, nm) =>
        let v : VSiteSpec :=
          { kind := .bondCharge, atoms := atoms, charge_increments := ci
            epsilon := eps, sigma := sig, name := nm, distance := distance
            out_of_plane_angle := none, in_plane_angle := none }
        .ok (invalidateCachedProperties
               { m with virtual_sites := m.virtual_sites ++ [v] },
             m.virtual_sites.length)
  else .error "IndexError: list index out of range"

/-- `FrozenMolecule._add_monovalent_lone_pair_virtual_site` (atom-index form):
the `MonovalentLonePairVirtualSite` constructor asserts `len(atoms) == 3`
before the base-class constructor runs. -/
def addMonovalentLonePairVirtualSite (m : OFFMol) (atoms : List ℕ)
    (distance out_of_plane_angle in_plane_angle : ℚ) (a : VSiteArgs := {}) :
    Except String (OFFMol × ℕ) :=
  if atoms.all (· < m.atoms.length) then
    if atoms.length = 3 then
      match vsiteBaseInit atoms a with
      | .error e => .error e
      | .ok (ci, eps, sig, nm) =>
          let v : VSiteSpec :=
            { kind := .monovalentLonePair, atoms := atoms
              charge_increments := ci, epsilon := eps, sigma := sig
              name := nm, distance := distance
              out_of_plane_angle := some out_of_plane_angle
              in_plane_angle := some in_plane_angle }
          .ok (invalidateCachedProperties
                 { m with virtual_sites := m.virtual_sites ++ [v] },
               m.virtual_sites.length)
    else .error "AssertionError: len(atoms) == 3"
  else .error "IndexError: list index out of range"

/-- `FrozenMolecule._add_divalent_lone_pair_virtual_site` (atom-index form):
`DivalentLonePairVirtualSite.__init__` asserts `len(atoms) == 3`. -/
def addDivalentLonePairVirtualSite (m : OFFMol) (atoms : List ℕ)
    (distance out_of_plane_angle in_plane_angle : ℚ) (a : VSiteArgs := {}) :
    Except String (OFFMol × ℕ) :=
  if atoms.all (· < m.atoms.length) then
    if atoms.length = 3 then
      match vsiteBaseInit atoms a with
      | .error e => .error e
      | .ok (ci, eps, sig, nm) =>
          let v : VSiteSpec :=
            { kind := .divalentLonePair, atoms := atoms
              charge_increments := ci, epsilon := eps, sigma := sig
              name := nm, distance := distance
              out_of_plane_angle := some out_of_plane_angle
              in_plane_angle := some in_plane_angle }
          .ok (invalidateCachedProperties
                 { m with virtual_sites := m.virtual_sites ++ [v] },
               m.virtual_sites.length)
    else .error "AssertionError: len(atoms) == 3"
  else .error "IndexError: list index out of range"

/-- `FrozenMolecule._add_trivalent_lone_pair_virtual_site` (atom-index form):
`TrivalentLonePairVirtualSite.__init__` asserts `len(atoms) == 4`. -/
def addTrivalentLonePairVirtualSite (m : OFFMol) (atoms : List ℕ)
    (distance out_of_plane_angle in_plane_angle : ℚ) (a : VSiteArgs := {}) :
    Except String (OFFMol × ℕ) :=
  if atoms.all (· < m.atoms.length) then
    if atoms.length = 4 then
      match vsiteBaseInit atoms a with
      | .error e => .error e
      | .ok (ci, eps, sig, nm) =>
          let v : VSiteSpec :=
            { kind := .trivalentLonePair, atoms := atoms
              charge_increments := ci, epsilon := eps, sigma := sig
              name := nm, distance := distance
              out_of_plane_angle := some out_of_plane_angle
              in_plane_angle := some in_plane_angle }
          .ok (invalidateCachedProperties
                 { m with virtual_sites := m.virtual_sites ++ [v] },
               m.virtual_sites.length)
    else .error "AssertionError: len(atoms) == 4"
  else .error "IndexError: list index out of range"

/-! ## Derived topology (`_construct_bonded_atoms_list`, `_construct_angles`,
`_construct_torsions`) and the lazily-cached accessors. -/

/-- The undirected adjacency built by `_construct_bonded_atoms_list`
(each bond contributes both directed pairs). -/
def adjacencyOf (bonds : List BondSpec) : Finset (ℕ × ℕ) :=
  bonds.foldl
    (fun s b => insert (b.atom1, b.atom2) (insert (b.atom2, b.atom1) s)) ∅

/-- Canonicalisation used by `_construct_angles`: the endpoint with the lower
atom index comes first. -/
def canonAngle (t : AngleT) : AngleT :=
  if t.1 < t.2.2 then t else (t.2.2, t.2.1, t.1)

/-- The angle set built by `_construct_angles` from the cached adjacency:
all `(atom1, atom2, atom3)` with `atom1–atom2` and `atom2–atom3` bonded and
`atom1 ≠ atom3`, canonicalised (the source iterates atoms and neighbours and
accumulates into a Python set; adjacency pairs only relate valid indices). -/
def computeAngles (n : ℕ) (adj : Finset (ℕ × ℕ)) : Finset AngleT :=
  ((Finset.range n ×ˢ Finset.range n ×ˢ Finset.range n).filter
      (fun t => (t.1, t.2.1) ∈ adj ∧ (t.2.1, t.2.2) ∈ adj ∧ t.1 ≠ t.2.2)).image
    canonAngle

/-- Canonicalisation used by `_construct_torsions` for proper torsions. -/
def canonTorsion (t : TorsionT) : TorsionT :=
  if t.1 < t.2.2.2 then t else (t.2.2.2, t.2.2.1, t.2.1, t.1)

/-- The proper-torsion set of `_construct_torsions`: paths
`atom1–atom2–atom3–atom4` with `atom1 ≠ atom3`, `atom2 ≠ atom4`,
`atom1 ≠ atom4`, canonicalised. -/
def computePropers (n : ℕ) (adj : Finset (ℕ × ℕ)) : Finset TorsionT :=
  ((Finset.range n ×ˢ Finset.range n ×ˢ Finset.range n ×ˢ
      Finset.range n).filter
      (fun t => (t.1, t.2.1) ∈ adj ∧ (t.2.1, t.2.2.1) ∈ adj ∧
        (t.2.2.1, t.2.2.2) ∈ adj ∧ t.1 ≠ t.2.2.1 ∧ t.2.1 ≠ t.2.2.2 ∧
        t.1 ≠ t.2.2.2)).image canonTorsion

/-- The improper-torsion set of `_construct_torsions`: `(atom1, atom2, atom3,
atom3i)` with `atom2` bonded to each of the others, `atom1 ≠ atom3`,
`atom3i ≠ atom3`, `atom3i ≠ atom1` (no canonicalisation in the source). -/
def computeImpropers (n : ℕ) (adj : Finset (ℕ × ℕ)) : Finset TorsionT :=
  (Finset.range n ×ˢ Finset.range n ×ˢ Finset.range n ×ˢ
      Finset.range n).filter
    (fun t => (t.1, t.2.1) ∈ adj ∧ (t.2.1, t.2.2.1) ∈ adj ∧
      (t.2.1, t.2.2.2) ∈ adj ∧ t.1 ≠ t.2.2.1 ∧ t.2.2.2 ≠ t.2.2.1 ∧
      t.2.2.2 ≠ t.1)

/-- `_construct_bonded_atoms_list`: a no-op when the `_bondedAtoms` attribute
already exists. -/
def constructBondedAtomsList (m : OFFMol) : OFFMol :=
  match m.cache.bondedAtoms with
  | some _ => m
  | none =>
      { m with cache := { m.cache with bondedAtoms := some (adjacencyOf m.bonds) } }

/-- `_construct_angles`: a no-op when the `_angles` attribute already exists
(note: `_invalidate_cached_properties` never removes it). -/
def constructAngles (m : OFFMol) : OFFMol :=
  match m.cache.angles with
  | some _ => m
  | none =>
      let m1 := constructBondedAtomsList m
      { m1 with cache := { m1.cache with
          angles := some (computeAngles m1.atoms.length
            (m1.cache.bondedAtoms.getD ∅)) } }

/-- `_construct_torsions`: a no-op when the `_torsions` attribute already
exists (even though `_invalidate_cached_properties` may meanwhile have set
`_propers`/`_impropers` to `None`). -/
def constructTorsions (m : OFFMol) : OFFMol :=
  if m.cache.torsionsPresent then m
  else
    let m1 := constructBondedAtomsList m
    let adj := m1.cache.bondedAtoms.getD ∅
    { m1 with cache := { m1.cache with
        torsionsPresent := true
        propers := some (some (computePropers m1.atoms.length adj))
        impropers := some (some (computeImpropers m1.atoms.length adj)) } }

/-- The `angles` property: runs `_construct_angles`, returns `self._angles`
(together with the molecule state, whose cache attributes it may create). -/
def anglesAccessor (m : OFFMol) : OFFMol × Finset AngleT :=
  let m1 := constructAngles m
  (m1, m1.cache.angles.getD ∅)

/-- The `propers` property: runs `_construct_torsions`, returns
`self._propers` — which is Python `None` (modelled `none`) when a mutation
invalidated it but the surviving `_torsions` attribute suppressed
recomputation. -/
def propersAccessor (m : OFFMol) : OFFMol × Option (Finset TorsionT) :=
  let m1 := constructTorsions m
  (m1, m1.cache.propers.getD none)

/-- The `impropers` property, analogously. -/
def impropersAccessor (m : OFFMol) : OFFMol × Option (Finset TorsionT) :=
  let m1 := constructTorsions m
  (m1, m1.cache.impropers.getD none)

/-! ## Hill formula (`FrozenMolecule.to_hill_formula`). -/

/-- Modelled from the external library (`simtk.openmm.app.Element`): the
chemical symbol of an atomic number, for the elements this development uses;
other atomic numbers get a distinct placeholder (no placeholder collides with
a produced symbol). -/
def elementSymbol (z : ℕ) : String :=
  match z with
  | 1 => "H"
  | 5 => "B"
  | 6 => "C"
  | 7 => "N"
  | 8 => "O"
  | 9 => "F"
  | 15 => "P"
  | 16 => "S"
  | 17 => "Cl"
  | 35 => "Br"
  | 53 => "I"
  | _ => "Q" ++ toString z

/-- Lexicographic comparison of character lists by code point (the order
Python's `sorted` uses on the symbol strings). -/
def lexLtB : List Char → List Char → Bool
  | [], [] => false
  | [], _ :: _ => true
  | _ :: _, [] => false
  | a :: as, b :: bs =>
      if a.val < b.val then true
      else if b.val < a.val then false
      else lexLtB as bs

/-- Total `≤` on strings by code point. -/
def strLeB (a b : String) : Bool := !(lexLtB b.data a.data)

/-- One formula component: the symbol, with the count appended when `> 1`. -/
def formulaPart (s : String) (count : ℕ) : String :=
  s ++ (if 1 < count then toString count else "")

/-- `FrozenMolecule.to_hill_formula` (for a `FrozenMolecule` input): count the
element symbols, emit `C` then `H` first when present, then the remaining
distinct symbols in alphabetical order, appending counts greater than one. -/
def toHillFormula (m : OFFMol) : String :=
  let syms := m.atoms.map fun a => elementSymbol a.atomic_number
  let ch := (["C", "H"].filter fun s => syms.contains s).map
    fun s => formulaPart s (syms.count s)
  let rest :=
    (((syms.filter fun s => s ≠ "C" && s ≠ "H").dedup).insertionSort
        (fun a b => strLeB a b = true)).map
      fun s => formulaPart s (syms.count s)
  String.join (ch ++ rest)

/-! ## Graph isomorphism (`FrozenMolecule.are_isomorphic` /
`FrozenMolecule.to_networkx`). -/

/-- The node attributes `to_networkx` attaches to each atom. -/
structure NodeLabel where
  atomic_number : ℕ
  is_aromatic : Bool
  stereochemistry : Option String
  formal_charge : ℤ
deriving DecidableEq

/-- The edge attributes `to_networkx` attaches to each bond. -/
structure EdgeLabel where
  bond_order : ℕ
  is_aromatic : Bool
  stereochemistry : Option String
deriving DecidableEq

/-- The five matching flags of `are_isomorphic` (all default `True`). -/
structure MatchFlags where
  aromatic_matching : Bool := true
  formal_charge_matching : Bool := true
  bond_order_matching : Bool := true
  atom_stereochemistry_matching : Bool := true
  bond_stereochemistry_matching : Bool := true
deriving DecidableEq, Repr

def nodeLabelOf (a : AtomSpec) : NodeLabel :=
  { atomic_number := a.atomic_number, is_aromatic := a.is_aromatic
    stereochemistry := a.stereochemistry, formal_charge := a.formal_charge }

/-- `node_match_func` in `are_isomorphic`: always the atomic number, plus the
flagged attributes. -/
def nodeMatch (fl : MatchFlags) (x y : NodeLabel) : Bool :=
  decide (x.atomic_number = y.atomic_number) &&
  (!fl.aromatic_matching || decide (x.is_aromatic = y.is_aromatic)) &&
  (!fl.formal_charge_matching || decide (x.formal_charge = y.formal_charge)) &&
  (!fl.atom_stereochemistry_matching ||
    decide (x.stereochemistry = y.stereochemistry))

/-- Whether `are_isomorphic` builds an `edge_match_func` at all. -/
def useEdgeMatch (fl : MatchFlags) : Bool :=
  fl.aromatic_matching || fl.bond_order_matching ||
  fl.bond_stereochemistry_matching

/-- `edge_match_func`: aromaticity-or-bond-order (when both flags are set, an
edge matches if EITHER agrees), then bond stereochemistry. -/
def edgeMatchFunc (fl : MatchFlags) (x y : EdgeLabel) : Bool :=
  let base : Option Bool :=
    if fl.aromatic_matching && fl.bond_order_matching then
      some (decide (x.is_aromatic = y.is_aromatic) ||
        decide (x.bond_order = y.bond_order))
    else if fl.aromatic_matching then
      some (decide (x.is_aromatic = y.is_aromatic))
    else if fl.bond_order_matching then
      some (decide (x.bond_order = y.bond_order))
    else none
  if fl.bond_stereochemistry_matching then
    match base with
    | none => decide (x.stereochemistry = y.stereochemistry)
    | some b => b && decide (x.stereochemistry = y.stereochemistry)
  else
    base.getD true

/-- Edge comparison for a candidate node bijection: matched node pairs must
agree on edge existence, and existing edges must satisfy `edge_match_func`
(when one is used; otherwise only existence is compared). -/
def edgeOptMatch (fl : MatchFlags) : Option EdgeLabel → Option EdgeLabel → Bool
  | none, none => true
  | some a, some b => if useEdgeMatch fl then edgeMatchFunc fl a b else true
  | _, _ => false

/-- The edge (with attributes) between two atom indices, as `to_networkx`
records it: the first bond joining the unordered pair. -/
def edgeLabelAt (m : OFFMol) (i j : ℕ) : Option EdgeLabel :=
  (m.bonds.find? fun b =>
      (b.atom1 == i && b.atom2 == j) || (b.atom1 == j && b.atom2 == i)).map
    fun b => { bond_order := b.bond_order, is_aromatic := b.is_aromatic
               stereochemistry := b.stereochemistry }

/-- The node label of atom `i`. -/
def nodeLabelAt (m : OFFMol) (i : Fin m.atoms.length) : NodeLabel :=
  nodeLabelOf (m.atoms.get i)

/-- `networkx.is_isomorphic` on the two labelled graphs: a bijection between
the atom-index node sets preserving node labels (under `node_match_func`) and
edges (under `edge_match_func`). -/
def IsIsomorphicTo (fl : MatchFlags) (m1 m2 : OFFMol) : Prop :=
  ∃ σ : Fin m1.atoms.length ≃ Fin m2.atoms.length,
    (∀ i, nodeMatch fl (nodeLabelAt m1 i) (nodeLabelAt m2 (σ i)) = true) ∧
    (∀ i j, edgeOptMatch fl (edgeLabelAt m1 i.val j.val)
      (edgeLabelAt m2 (σ i).val (σ j).val) = true)

instance (fl : MatchFlags) (m1 m2 : OFFMol) :
    Decidable (IsIsomorphicTo fl m1 m2) := by
  unfold IsIsomorphicTo; infer_instance

/-- The atom map produced by the `GraphMatcher` branch: the source takes an
arbitrary isomorphism and returns it keyed by ascending `mol1` index; modelled
by the first matching permutation in an enumeration. -/
def firstIsoMap (fl : MatchFlags) (m1 m2 : OFFMol) : Option (List (ℕ × ℕ)) :=
  if m1.atoms.length = m2.atoms.length then
    ((List.range m1.atoms.length).permutations.find? fun p =>
        decide (∃ σ : Fin m1.atoms.length ≃ Fin m2.atoms.length,
          (∀ i : Fin m1.atoms.length, p.getD i.val 0 = (σ i).val) ∧
          (∀ i, nodeMatch fl (nodeLabelAt m1 i) (nodeLabelAt m2 (σ i)) = true) ∧
          (∀ i j, edgeOptMatch fl (edgeLabelAt m1 i.val j.val)
            (edgeLabelAt m2 (σ i).val (σ j).val) = true))).map
      fun p => (List.range m1.atoms.length).map fun i => (i, p.getD i 0)
  else none

/-- `FrozenMolecule.are_isomorphic` for two molecules: the quick Hill-formula
rejection, then labelled-graph isomorphism; the atom map is returned only when
requested and isomorphic. -/
def are_isomorphic (fl : MatchFlags) (return_atom_map : Bool)
    (m1 m2 : OFFMol) : Bool × Option (List (ℕ × ℕ)) :=
  if toHillFormula m1 ≠ toHillFormula m2 then (false, none)
  else
    let iso := decide (IsIsomorphicTo fl m1 m2)
    if iso && return_atom_map then (iso, firstIsoMap fl m1 m2)
    else (iso, none)

/-! ## Serialization (`FrozenMolecule.to_dict` / `from_dict` /
`_initialize_from_dict`).

The helpers `quantity_to_string`, `string_to_quantity`, `serialize_numpy` and
`deserialize_numpy` live in `openforcefield/utils/utils.py`, which is not part
of the provided sources; they are modelled from the spec below. -/

/-- Modelled from the spec: `openforcefield.utils.quantity_to_string`
serialises a unit-bearing quantity as the string `"<value> <unit-string>"`
(`None` stays `None`); together with `string_to_quantity` it round-trips the
numeric payload exactly.  The payload type `α` instantiates to a scalar or a
list quantity. -/
structure QuantityString (α : Type) where
  payload : α
deriving DecidableEq, Repr

/-- Modelled from the spec: `openforcefield.utils.quantity_to_string`. -/
def quantity_to_string {α : Type} (q : α) : QuantityString α := ⟨q⟩

/-- Modelled from the spec: `openforcefield.utils.string_to_quantity`. -/
def string_to_quantity {α : Type} (s : QuantityString α) : α := s.payload

/-- Modelled from the spec: `openforcefield.utils.serialize_numpy` flattens a
`(n, 3)` coordinate array into a flat numeric buffer (shape metadata is
returned alongside but discarded by `to_dict`); the same bytes deserialize
identically. -/
def serialize_numpy_conf (conf : List Vec3) : List ℚ :=
  conf.flatMap fun v => [v.x, v.y, v.z]

/-- Modelled from the spec: `openforcefield.utils.deserialize_numpy` with
shape `(rows, 3)`; fails (numpy reshape error) when the buffer size does not
match the requested shape. -/
def deserialize_numpy_conf (buf : List ℚ) (rows : ℕ) : Option (List Vec3) :=
  if buf.length = 3 * rows then
    some ((List.range rows).map fun i =>
      ⟨buf.getD (3 * i) 0, buf.getD (3 * i + 1) 0, buf.getD (3 * i + 2) 0⟩)
  else none

/-- Modelled from the spec: `serialize_numpy` on the `(n,)` charge array. -/
def serialize_numpy_charges (cs : List ℚ) : List ℚ := cs

/-- Modelled from the spec: `deserialize_numpy` with shape `(n,)`. -/
def deserialize_numpy_charges (buf : List ℚ) (n : ℕ) : Option (List ℚ) :=
  if buf.length = n then some buf else none

/-- The dictionary produced by the virtual-site `to_dict` methods: the shared
fields from `VirtualSite.to_dict` (`name`, `atoms` as molecule atom indices,
`charge_increments`, `epsilon`, `sigma` — the numeric ones through
`quantity_to_string`), the subtype's geometry fields, and the `vsite_type`
discriminant.  The angle keys exist only on the lone-pair subtypes. -/
structure VSiteDict where
  name : Option String
  atoms : List ℕ
  charge_increments : QuantityString (Option (List ℚ))
  epsilon : QuantityString (Option ℚ)
  sigma : QuantityString (Option ℚ)
  distance : QuantityString ℚ
  out_of_plane_angle : Option (QuantityString ℚ)
  in_plane_angle : Option (QuantityString ℚ)
  vsite_type : String
deriving DecidableEq

/-- The class name serialised as the `vsite_type` discriminant. -/
def vsiteTypeName : VSiteKind → String
  | .bondCharge => "BondChargeVirtualSite"
  | .monovalentLonePair => "MonovalentLonePairVirtualSite"
  | .divalentLonePair => "DivalentLonePairVirtualSite"
  | .trivalentLonePair => "TrivalentLonePairVirtualSite"

/-- The subtype `to_dict` methods (each calls `VirtualSite.to_dict` and adds
its geometry fields and the `vsite_type` tag). -/
def vsiteToDict (v : VSiteSpec) : VSiteDict :=
  { name := v.name
    atoms := v.atoms
    charge_increments := quantity_to_string v.charge_increments
    epsilon := quantity_to_string v.epsilon
    sigma := quantity_to_string v.sigma
    distance := quantity_to_string v.distance
    out_of_plane_angle := v.out_of_plane_angle.map quantity_to_string
    in_plane_angle := v.in_plane_angle.map quantity_to_string
    vsite_type := vsiteTypeName v.kind }

/-- The dictionary produced by `FrozenMolecule.to_dict` (`Atom.to_dict` and
`Bond.to_dict` emit exactly the fields of `AtomSpec` / `BondSpec`, with bond
atoms as indices).  The `cached_properties` key is never emitted: the
`_cached_properties` attribute is never created by this code.  The
`conformers_unit`/`partial_charges_unit` keys exist exactly when the
corresponding data does (charges serialise an explicit `None` unit). -/
structure MoleculeDict where
  name : String
  atoms : List AtomSpec
  virtual_sites : List VSiteDict
  bonds : List BondSpec
  properties : List (String × String)
  conformers : Option (List (List ℚ))
  conformers_unit : Option String
  partial_charges : Option (List ℚ)
  partial_charges_unit : Option String
deriving DecidableEq

/-- `FrozenMolecule.to_dict`. -/
def toDict (m : OFFMol) : MoleculeDict :=
  { name := m.name
    atoms := m.atoms
    virtual_sites := m.virtual_sites.map vsiteToDict
    bonds := m.bonds
    properties := m.properties
    conformers := m.conformers.map fun confs => confs.map serialize_numpy_conf
    conformers_unit := m.conformers.map fun _ => "angstrom"
    partial_charges := m.partial_charges.map serialize_numpy_charges
    partial_charges_unit := m.partial_charges.map fun _ => "elementary_charge" }

/-- The virtual-site dispatch inside `_initialize_from_dict`: re-attach units
to `epsilon`/`sigma`/`charge_increments`, then branch on `vsite_type`, decode
the subtype's geometry fields (a missing angle key raises `KeyError`), and
call the matching `_add_*_virtual_site`; an unrecognised tag raises. -/
def addVSiteFromDict (acc : OFFMol) (vd : VSiteDict) : Except String OFFMol :=
  let args : VSiteArgs :=
    { charge_increments := string_to_quantity vd.charge_increments
      epsilon := string_to_quantity vd.epsilon
      sigma := string_to_quantity vd.sigma
      rmin_half := none
      name := vd.name }
  if vd.vsite_type = "BondChargeVirtualSite" then
    (addBondChargeVirtualSite acc vd.atoms
      (string_to_quantity vd.distance) args).map (·.1)
  else if vd.vsite_type = "MonovalentLonePairVirtualSite" then
    match vd.out_of_plane_angle, vd.in_plane_angle with
    | some oop, some ip =>
        (addMonovalentLonePairVirtualSite acc vd.atoms
          (string_to_quantity vd.distance) (string_to_quantity oop)
          (string_to_quantity ip) args).map (·.1)
    | _, _ => .error "KeyError"
  else if vd.vsite_type = "DivalentLonePairVirtualSite" then
    match vd.out_of_plane_angle, vd.in_plane_angle with
    | some oop, some ip =>
        (addDivalentLonePairVirtualSite acc vd.atoms
          (string_to_quantity vd.distance) (string_to_quantity oop)
          (string_to_quantity ip) args).map (·.1)
    | _, _ => .error "KeyError"
  else if vd.vsite_type = "TrivalentLonePairVirtualSite" then
    match vd.out_of_plane_angle, vd.in_plane_angle with
    | some oop, some ip =>
        (addTrivalentLonePairVirtualSite acc vd.atoms
          (string_to_quantity vd.distance) (string_to_quantity oop)
          (string_to_quantity ip) args).map (·.1)
    | _, _ => .error "KeyError"
  else
    .error ("Vsite type " ++ vd.vsite_type ++ " not recognized")

/-- One `_add_atom(**atom_dict)` call on a full atom dictionary (the stored
name is already a string, so `add_atom` keeps it unchanged). -/
def addAtomStep (acc : OFFMol) (a : AtomSpec) : OFFMol :=
  (addAtom acc a.atomic_number a.formal_charge a.is_aromatic
    a.stereochemistry (some a.name)).1

/-- One `_add_bond(**bond_dict)` call on a full bond dictionary. -/
def addBondStep (acc : OFFMol) (b : BondSpec) : Except String OFFMol :=
  (addBond acc b.atom1 b.atom2 b.bond_order b.is_aromatic
    b.stereochemistry b.fractional_bond_order).map (·.1)

/-- The conformer-deserialisation loop of `_initialize_from_dict`. -/
def deserializeConformers (n : ℕ) :
    List (List ℚ) → Except String (List (List Vec3))
  | [] => .ok []
  | buf :: rest =>
      match deserialize_numpy_conf buf n with
      | some c => (deserializeConformers n rest).map fun cs => c :: cs
      | none => .error "ValueError: cannot reshape array"

/-- Exception-propagating sequencing (Python's implicit propagation of a
raised exception past the remaining statements). -/
def bindE (x : Except String OFFMol) (f : OFFMol → Except String OFFMol) :
    Except String OFFMol :=
  match x with
  | .error e => .error e
  | .ok v => f v

/-- The partial-charge block of `_initialize_from_dict`: `None` stays `None`,
otherwise the flat buffer is deserialised with shape `(n_atoms,)` and
unit-wrapped. -/
def chargesFromDict (d : MoleculeDict) (m4 : OFFMol) : Except String OFFMol :=
  match d.partial_charges with
  | none => .ok { m4 with partial_charges := none }
  | some buf =>
      match deserialize_numpy_charges buf m4.atoms.length with
      | some cs => .ok { m4 with partial_charges := some cs }
      | none => .error "ValueError: cannot reshape array"

/-- The conformer block of `_initialize_from_dict`: `None` stays `None`,
otherwise each flat buffer is deserialised with shape `(n_atoms, 3)` and
appended. -/
def conformersFromDict (d : MoleculeDict) (m5 : OFFMol) :
    Except String OFFMol :=
  match d.conformers with
  | none => .ok { m5 with conformers := none }
  | some bufs =>
      match deserializeConformers m5.atoms.length bufs with
      | .ok confs => .ok { m5 with conformers := some confs }
      | .error e => .error e

/-- `FrozenMolecule._initialize_from_dict`: `_initialize`, set the name, add
the atoms (each dict name is already a string), add the virtual sites, add the
bonds, then install partial charges, conformers and properties. -/
def initializeFromDict (d : MoleculeDict) : Except String OFFMol :=
  bindE (foldE addVSiteFromDict (d.atoms.foldl addAtomStep { name := d.name })
      d.virtual_sites) fun m3 =>
    bindE (foldE addBondStep m3 d.bonds) fun m4 =>
      bindE (chargesFromDict d m4) fun m5 =>
        bindE (conformersFromDict d m5) fun m6 =>
          .ok { m6 with properties := d.properties }

/-- `FrozenMolecule.from_dict` (constructs an empty molecule, then
`_initialize_from_dict`). -/
def fromDict (d : MoleculeDict) : Except String OFFMol :=
  initializeFromDict d

/-- The structural-and-numeric content of a molecule: every stored field
except the lazily-created cache attributes (which are not part of the
serialised representation). -/
structure MolData where
  name : String
  atoms : List AtomSpec
  virtual_sites : List VSiteSpec
  bonds : List BondSpec
  properties : List (String × String)
  partial_charges : Option (List ℚ)
  conformers : Option (List (List Vec3))
deriving DecidableEq

/-- Project a molecule to its structural-and-numeric content. -/
def OFFMol.data (m : OFFMol) : MolData :=
  { name := m.name, atoms := m.atoms, virtual_sites := m.virtual_sites
    bonds := m.bonds, properties := m.properties
    partial_charges := m.partial_charges, conformers := m.conformers }

/-! ## `FrozenMolecule.remap`. -/

/-- Python `dict` lookup for a dict built from a pair list (`dict(zip(..))`
keeps the last binding of a repeated key). -/
def dictGet (d : List (ℕ × ℕ)) (k : ℕ) : Option ℕ :=
  (d.reverse.find? fun p => p.1 == k).map (·.2)

/-- Lookup raising `KeyError` when the key is absent. -/
def dictGetE (d : List (ℕ × ℕ)) (k : ℕ) : Except String ℕ :=
  match dictGet d k with
  | some v => .ok v
  | none => .error "KeyError"

/-- `dict(zip(mapping_dict.values(), mapping_dict.keys()))`. -/
def dictInvert (d : List (ℕ × ℕ)) : List (ℕ × ℕ) :=
  d.map fun p => (p.2, p.1)

/-- The atom loop of `remap`: for each new index `i`, fetch
`self._atoms[new_to_cur[i]]` and `add_atom(**old_atom.to_dict())`; a
`KeyError`/`IndexError` is re-raised as `IndexError`. -/
def remapAtoms (m : OFFMol) (new_to_cur : List (ℕ × ℕ)) (nm : OFFMol) :
    Except String OFFMol :=
  foldE
    (fun acc i =>
      match dictGet new_to_cur i with
      | none => .error "IndexError: The mapping supplied is missing a relation"
      | some j =>
          match m.atoms.get? j with
          | none =>
              .error "IndexError: The mapping supplied is missing a relation"
          | some a => .ok (addAtomStep acc a))
    nm (List.range m.atoms.length)

/-- The bond loop of `remap`: each bond's endpoints are mapped through
`cur_to_new`, sorted ascending, and re-added with the bond's other fields
(an absent key raises `KeyError`, uncaught). -/
def remapBonds (m : OFFMol) (cur_to_new : List (ℕ × ℕ)) (nm : OFFMol) :
    Except String OFFMol :=
  foldE
    (fun acc b =>
      match dictGet cur_to_new b.atom1, dictGet cur_to_new b.atom2 with
      | some n1, some n2 =>
          (addBond acc (min n1 n2) (max n1 n2) b.bond_order b.is_aromatic
            b.stereochemistry b.fractional_bond_order).map (·.1)
      | _, _ => .error "KeyError")
    nm m.bonds

/-- `sorted(new_molecule.bonds, key=operator.attrgetter('atom1_index',
'atom2_index'))` (Python's sort is stable; so is insertion sort). -/
def sortBonds (bs : List BondSpec) : List BondSpec :=
  bs.insertionSort fun b1 b2 =>
    b1.atom1 < b2.atom1 ∨ (b1.atom1 = b2.atom1 ∧ b1.atom2 ≤ b2.atom2)

/-- One element lookup of the permuting loops of `remap`: `xs[new_to_cur[i]]`
(a missing key raises `KeyError`, an out-of-range index `IndexError`). -/
def lookupPermuted {α : Type} (new_to_cur : List (ℕ × ℕ)) (xs : List α)
    (i : ℕ) : Except String α :=
  match dictGet new_to_cur i with
  | none => .error "KeyError"
  | some j =>
      match xs.get? j with
      | some v => .ok v
      | none => .error "IndexError: index out of bounds"

/-- `[xs[new_to_cur[i]] for i in range(n)]`. -/
def permuteListGo {α : Type} (new_to_cur : List (ℕ × ℕ)) (xs : List α) :
    List ℕ → Except String (List α)
  | [] => .ok []
  | i :: rest =>
      match lookupPermuted new_to_cur xs i with
      | .error e => .error e
      | .ok v => (permuteListGo new_to_cur xs rest).map fun vs => v :: vs

/-- Permute a per-atom array through `new_to_cur` over all atom indices. -/
def permuteList {α : Type} (new_to_cur : List (ℕ × ℕ)) (n : ℕ)
    (xs : List α) : Except String (List α) :=
  permuteListGo new_to_cur xs (List.range n)

/-- One `self.partial_charges[new_to_cur[i]]` subscript of the charge loop
of `remap`: Python evaluates the index expression `new_to_cur[i]` first (a
missing key raises `KeyError`), then subscripts the charge array (`None`
charges raise `TypeError`, an out-of-range index `IndexError`). -/
def chargeSubscript (charges : Option (List ℚ)) (new_to_cur : List (ℕ × ℕ))
    (i : ℕ) : Except String ℚ :=
  match dictGet new_to_cur i with
  | none => .error "KeyError"
  | some j =>
      match charges with
      | none => .error "TypeError: NoneType object is not subscriptable"
      | some cs =>
          match cs.get? j with
          | some v => .ok v
          | none => .error "IndexError: index out of bounds"

/-- The charge loop `for i in range(self.n_atoms): new_charges[i] = ...` of
`remap`: the body — and with it the `None` subscript — runs once per atom,
so it never raises on a zero-atom molecule. -/
def remapChargesGo (charges : Option (List ℚ))
    (new_to_cur : List (ℕ × ℕ)) : List ℕ → Except String (List ℚ)
  | [] => .ok []
  | i :: rest =>
      match chargeSubscript charges new_to_cur i with
      | .error e => .error e
      | .ok v =>
          (remapChargesGo charges new_to_cur rest).map fun vs => v :: vs

/-- The charge step of `remap`: `new_charges = np.zeros(self.n_atoms)`, the
per-atom subscript loop, then assignment through the `partial_charges`
setter (which asserts the `(new_molecule.n_atoms,)` shape). -/
def remapCharges (m : OFFMol) (new_to_cur : List (ℕ × ℕ)) (nm : OFFMol) :
    Except String OFFMol :=
  match remapChargesGo m.partial_charges new_to_cur
      (List.range m.atoms.length) with
  | .error e => .error e
  | .ok newCs =>
      if newCs.length = nm.atoms.length then
        .ok { nm with partial_charges := some newCs }
      else .error "AssertionError: charges.shape == (self.n_atoms,)"

/-- The conformer step of `remap`: each conformer's rows are permuted through
`new_to_cur` and re-added with `add_conformer`. -/
def remapConformers (m : OFFMol) (new_to_cur : List (ℕ × ℕ)) (nm : OFFMol) :
    Except String OFFMol :=
  match m.conformers with
  | none => .ok nm
  | some confs =>
      foldE
        (fun acc conf =>
          match permuteList new_to_cur m.atoms.length conf with
          | .error e => .error e
          | .ok rows => (addConformer acc rows).map (·.1))
        nm confs

/-- `FrozenMolecule.remap`: fails fast on virtual sites and on a mapping of
the wrong size; builds the permuted molecule (atoms, bonds re-sorted, charges,
conformers) and copies the properties reference. -/
def remap (m : OFFMol) (mapping : List (ℕ × ℕ))
    (current_to_new : Bool := true) : Except String OFFMol :=
  if m.virtual_sites.length ≠ 0 then
    .error "NotImplementedError: We can not remap virtual sites yet!"
  else if mapping.length ≠ m.atoms.length then
    .error "ValueError: The number of mapping indices does not match the number of atoms"
  else
    match remapAtoms m
        (if current_to_new then dictInvert mapping else mapping)
        { name := m.name } with
    | .error e => .error e
    | .ok nm1 =>
        match remapBonds m
            (if current_to_new then mapping else dictInvert mapping) nm1 with
        | .error e => .error e
        | .ok nm2 =>
            match remapCharges m
                (if current_to_new then dictInvert mapping else mapping)
                { nm2 with bonds := sortBonds nm2.bonds } with
            | .error e => .error e
            | .ok nm4 =>
                match remapConformers m
                    (if current_to_new then dictInvert mapping else mapping)
                    nm4 with
                | .error e => .error e
                | .ok nm5 => .ok { nm5 with properties := m.properties }

/-! ## `ToolkitRegistry.call` (`openforcefield/utils/toolkits.py`). -/

instance {ε ρ : Type} [DecidableEq ε] [DecidableEq ρ] :
    DecidableEq (Except ε ρ) := fun x y =>
  match x, y with
  | .ok a, .ok b =>
      if h : a = b then isTrue (by rw [h]) else isFalse (by simp [h])
  | .error a, .error b =>
      if h : a = b then isTrue (by rw [h]) else isFalse (by simp [h])
  | .ok _, .error _ => isFalse (by simp)
  | .error _, .ok _ => isFalse (by simp)

/-- A registered toolkit wrapper, for the purposes of one `call`: its name and
its method table (a method name maps to the outcome of invoking it with the
call's fixed arguments — a result or a raised exception).  `hasattr` is
modelled by table membership. -/
structure TKWrapper (ε ρ : Type) where
  name : String
  methods : List (String × Except ε ρ)
deriving DecidableEq

/-- `hasattr(toolkit, method_name)`. -/
def hasMethod {ε ρ : Type} (w : TKWrapper ε ρ) (meth : String) : Bool :=
  (w.methods.lookup meth).isSome

/-- The observable outcome of `ToolkitRegistry.call`: a returned value, an
immediately re-raised wrapper exception, or the final `ValueError`
enumerating each wrapper tried together with the exception it raised (also
raised, with an empty enumeration, when no wrapper provides the method). -/
inductive CallOutcome (ε ρ : Type) where
  | ok : ρ → CallOutcome ε ρ
  | raised : ε → CallOutcome ε ρ
  | aggregateError : List (String × ε) → CallOutcome ε ρ
deriving DecidableEq

/-- The wrapper loop of `ToolkitRegistry.call`: skip wrappers lacking the
method; return the first success; re-raise an exception matching any class in
`raise_exception_types` (`isinstance` is modelled by a predicate per class);
otherwise record `(toolkit, error)` and continue. -/
def callGo {ε ρ : Type} (meth : String) (preds : List (ε → Bool)) :
    List (TKWrapper ε ρ) → List (String × ε) → CallOutcome ε ρ
  | [], errs => .aggregateError errs
  | w :: ws, errs =>
      match w.methods.lookup meth with
      | none => callGo meth preds ws errs
      | some (.ok r) => .ok r
      | some (.error e) =>
          if preds.any fun p => p e then .raised e
          else callGo meth preds ws (errs ++ [(w.name, e)])

/-- `ToolkitRegistry.call`: a `raise_exception_types` of `None` defaults to
`[Exception]`, whose `isinstance` test accepts every exception. -/
def registryCall {ε ρ : Type} (reg : List (TKWrapper ε ρ)) (meth : String)
    (raise_exception_types : Option (List (ε → Bool)) := none) :
    CallOutcome ε ρ :=
  callGo meth (raise_exception_types.getD [fun _ => true]) reg []

/-- The enumeration `[(toolkit, error), ...]` that the final `ValueError`
of `call` reports when every providing wrapper failed. -/
def erredList {ε ρ : Type} (meth : String) (reg : List (TKWrapper ε ρ)) :
    List (String × ε) :=
  reg.filterMap fun w =>
    match w.methods.lookup meth with
    | some (.error e) => some (w.name, e)
    | _ => none

/-! ## Reachable-state invariants.

`WF m` collects the structural invariants that every molecule built through
the public construction API satisfies: bond endpoints are valid, distinct
atom indices with no duplicate unordered pair; virtual sites reference valid
atoms with the arity their constructor enforces, normalised VdW parameters
(`sigma` is stored iff `epsilon` is), matching charge-increment lengths, and
angle attributes exactly on the lone-pair subtypes; charge and conformer
arrays have the `(n_atoms,)` / `(n_atoms, 3)` shapes their setters enforce. -/

def wfBond (n : ℕ) (b : BondSpec) : Prop :=
  b.atom1 < n ∧ b.atom2 < n ∧ b.atom1 ≠ b.atom2

instance (n : ℕ) (b : BondSpec) : Decidable (wfBond n b) := by
  unfold wfBond; infer_instance

/-- Two bonds joining the same unordered atom pair. -/
def samePair (b1 b2 : BondSpec) : Prop :=
  (b1.atom1 = b2.atom1 ∧ b1.atom2 = b2.atom2) ∨
  (b1.atom1 = b2.atom2 ∧ b1.atom2 = b2.atom1)

instance (b1 b2 : BondSpec) : Decidable (samePair b1 b2) := by
  unfold samePair; infer_instance

/-- The atom count each virtual-site subtype constructor enforces: the
lone-pair subtypes assert exact arities; `BondChargeVirtualSite` only
requires the base class's `atoms[1]` access to succeed. -/
def wfArity (k : VSiteKind) (len : ℕ) : Prop :=
  match k with
  | .bondCharge => 2 ≤ len
  | .monovalentLonePair => len = 3
  | .divalentLonePair => len = 3
  | .trivalentLonePair => len = 4

instance (k : VSiteKind) (len : ℕ) : Decidable (wfArity k len) := by
  unfold wfArity; cases k <;> infer_instance

def wfVSite (n : ℕ) (v : VSiteSpec) : Prop :=
  (∀ i ∈ v.atoms, i < n) ∧
  wfArity v.kind v.atoms.length ∧
  v.epsilon.isSome = v.sigma.isSome ∧
  (∀ ci ∈ v.charge_increments, ci.length = v.atoms.length) ∧
  (v.kind = .bondCharge →
    v.out_of_plane_angle = none ∧ v.in_plane_angle = none) ∧
  (v.kind ≠ .bondCharge →
    v.out_of_plane_angle.isSome = true ∧ v.in_plane_angle.isSome = true)

instance (n : ℕ) (v : VSiteSpec) : Decidable (wfVSite n v) := by
  unfold wfVSite; infer_instance

def WF (m : OFFMol) : Prop :=
  (∀ b ∈ m.bonds, wfBond m.atoms.length b) ∧
  List.Pairwise (fun b1 b2 => ¬ samePair b1 b2) m.bonds ∧
  (∀ v ∈ m.virtual_sites, wfVSite m.atoms.length v) ∧
  (∀ cs ∈ m.partial_charges, cs.length = m.atoms.length) ∧
  (∀ confs ∈ m.conformers, ∀ c ∈ confs, c.length = m.atoms.length)

instance (m : OFFMol) : Decidable (WF m) := by
  unfold WF; infer_instance

/-! ## Helper lemmas. -/

theorem isBondedTo_comm (m : OFFMol) (i j : ℕ) :
    isBondedTo m i j = isBondedTo m j i := by
  unfold isBondedTo
  congr 1
  funext b
  exact Bool.or_comm _ _

theorem isBondedTo_iff (m : OFFMol) (i j : ℕ) :
    isBondedTo m i j = true ↔
    ∃ b ∈ m.bonds, (b.atom1 = i ∧ b.atom2 = j) ∨ (b.atom1 = j ∧ b.atom2 = i) := by
  simp [isBondedTo, List.any_eq_true]

/-- An `Except`-valued fold preserves any invariant its steps preserve. -/
theorem foldE_inv {α β : Type} (P : β → Prop)
    (f : β → α → Except String β)
    (hf : ∀ acc x r, P acc → f acc x = .ok r → P r) :
    ∀ (l : List α) (acc : β) (r : β), P acc → foldE f acc l = .ok r → P r := by
  intro l
  induction l with
  | nil =>
      intro acc r hP h
      simp only [foldE] at h
      cases h
      exact hP
  | cons x xs ih =>
      intro acc r hP h
      simp only [foldE] at h
      cases hfa : f acc x with
      | error e => rw [hfa] at h; cases h
      | ok b =>
          rw [hfa] at h
          exact ih b r (hf acc x b hP hfa) h

/-! ## C3: duplicate bonds are rejected. -/

/-- C3: in a well-formed molecule, calling `add_bond` on a pair of atoms that
is already bonded — in either atom order — raises the structural-invariant
error before any mutation takes place (in this functional embedding the
exception value is produced instead of a successor state, exactly as the
source raises before appending to `self._bonds`), so the molecule's bond list
is left unchanged. -/
theorem addBond_duplicate_rejected (m : OFFMol) (i j : ℕ) (bo : ℕ) (ar : Bool)
    (st : Option String) (fbo : Option ℚ)
    (hwf : WF m) (hb : isBondedTo m i j = true) :
    addBond m i j bo ar st fbo = .error "Bond already exists" ∧
    addBond m j i bo ar st fbo = .error "Bond already exists" := by
  obtain ⟨hbonds, -, -, -, -⟩ := hwf
  obtain ⟨b, hmem, hcase⟩ := (isBondedTo_iff m i j).mp hb
  obtain ⟨h1, h2, h3⟩ := hbonds b hmem
  have hi : i < m.atoms.length := by rcases hcase with ⟨e1, e2⟩ | ⟨e1, e2⟩ <;> omega
  have hj : j < m.atoms.length := by rcases hcase with ⟨e1, e2⟩ | ⟨e1, e2⟩ <;> omega
  have hij : i ≠ j := by rcases hcase with ⟨e1, e2⟩ | ⟨e1, e2⟩ <;> omega
  have hb' : isBondedTo m j i = true := by rw [isBondedTo_comm]; exact hb
  constructor
  · simp [addBond, hi, hj, hij, hb]
  · simp [addBond, hi, hj, Ne.symm hij, hb']

def wBondedPair : OFFMol :=
  { atoms := [⟨6, 0, false, none, ""⟩, ⟨1, 0, false, none, ""⟩]
    bonds := [⟨0, 1, 1, false, none, none⟩] }

theorem addBond_duplicate_rejected_witness :
    WF wBondedPair ∧ isBondedTo wBondedPair 0 1 = true ∧
    addBond wBondedPair 0 1 1 false none none = .error "Bond already exists" :=
  ⟨by decide, by decide,
    (addBond_duplicate_rejected wBondedPair 0 1 1 false none none
      (by decide) (by decide)).1⟩

/-! ## C10: `add_conformer` appends and returns the new conformer count. -/

/-- C10: adding a correctly-shaped conformer appends it to the conformer list
(creating the list on first use) and returns the new total number of
conformers — one more than the zero-based index of the conformer just
appended — while every other field (previously stored conformers, partial
charges, the cached derived topology, atoms, bonds, virtual sites,
properties) is untouched, as the single record-update equation shows. -/
theorem addConformer_spec (m : OFFMol) (c : List Vec3)
    (h : c.length = m.atoms.length) :
    addConformer m c =
      .ok ({ m with conformers := some (m.conformers.getD [] ++ [c]) },
        (m.conformers.getD []).length + 1) := by
  unfold addConformer
  rw [if_pos h]
  simp

def wOneAtom : OFFMol := { atoms := [⟨8, 0, false, none, ""⟩] }

theorem addConformer_spec_witness :
    ([(⟨0, 0, 0⟩ : Vec3)]).length = wOneAtom.atoms.length ∧
    addConformer wOneAtom [⟨0, 0, 0⟩] =
      .ok ({ wOneAtom with
              conformers := some (wOneAtom.conformers.getD [] ++ [[⟨0, 0, 0⟩]]) },
        (wOneAtom.conformers.getD []).length + 1) :=
  ⟨rfl, addConformer_spec wOneAtom [⟨0, 0, 0⟩] rfl⟩

/-! ## C9: `remap` unconditionally indexes the charge array. -/

theorem remapCharges_isSome (m : OFFMol) (n2c : List (ℕ × ℕ)) (nm r : OFFMol)
    (h : remapCharges m n2c nm = .ok r) : r.partial_charges ≠ none := by
  unfold remapCharges at h
  split at h
  · cases h
  · split at h
    · cases h
      simp
    · cases h

theorem addConformer_ok_fields (acc : OFFMol) (rows : List Vec3)
    (p : OFFMol × ℕ) (h : addConformer acc rows = .ok p) :
    p.1 = { acc with
            conformers := some (acc.conformers.getD [] ++ [rows]) } := by
  unfold addConformer at h
  by_cases hsh : rows.length = acc.atoms.length
  · rw [if_pos hsh] at h
    cases h
    rfl
  · rw [if_neg hsh] at h
    cases h

theorem remapConformers_charges (m : OFFMol) (n2c : List (ℕ × ℕ))
    (nm r : OFFMol) (h : remapConformers m n2c nm = .ok r) :
    r.partial_charges = nm.partial_charges := by
  unfold remapConformers at h
  split at h
  · cases h
    rfl
  · rename_i confs hc
    refine foldE_inv
      (fun b => b.partial_charges = nm.partial_charges) _ ?_ confs nm r rfl h
    intro acc conf r' hP hstep
    split at hstep
    · cases hstep
    · rename_i rows hrows
      cases hadd : addConformer acc rows with
      | error e => rw [hadd] at hstep; cases hstep
      | ok p =>
          rw [hadd] at hstep
          simp only [Except.map] at hstep
          cases hstep
          rw [addConformer_ok_fields acc rows p hadd]
          exact hP

theorem chargeSubscript_none (n2c : List (ℕ × ℕ)) (i : ℕ) :
    ∃ e, chargeSubscript none n2c i = .error e := by
  unfold chargeSubscript
  cases dictGet n2c i with
  | none => exact ⟨"KeyError", rfl⟩
  | some j =>
      exact ⟨"TypeError: NoneType object is not subscriptable", rfl⟩

/-- With at least one atom, the charge loop body runs and the `None`
subscript (or the evaluation of its index expression) raises. -/
theorem remapCharges_none_errors (m : OFFMol) (n2c : List (ℕ × ℕ))
    (nm : OFFMol) (hpc : m.partial_charges = none)
    (hn : 0 < m.atoms.length) :
    ∀ r, remapCharges m n2c nm ≠ .ok r := by
  intro r h
  unfold remapCharges at h
  rw [hpc] at h
  obtain ⟨k, hk⟩ : ∃ k, m.atoms.length = k + 1 :=
    ⟨m.atoms.length - 1, by omega⟩
  rw [hk, List.range_succ_eq_map] at h
  obtain ⟨e, he⟩ := chargeSubscript_none n2c 0
  simp only [remapChargesGo, he] at h
  exact Except.noConfusion h

/-- C9 (amended): when a molecule's partial charges were never computed
(`partial_charges is None`) and the molecule has at least one atom, `remap`
raises for every mapping — even a valid bijection on a molecule with no
virtual sites — because the per-atom charge loop indexes into the `None`
charge array; and `remap` never returns a remapped molecule whose
`partial_charges` is `None`.  (The atom-count restriction is necessary: for
the zero-atom molecule the loop body never runs and `remap` of the empty
mapping succeeds, `remap_empty_chargeless_counterexample`.) -/
theorem remap_unconditional_charge_indexing (m : OFFMol)
    (mapping : List (ℕ × ℕ)) (c2n : Bool) :
    (m.partial_charges = none → 0 < m.atoms.length →
      ∀ m', remap m mapping c2n ≠ .ok m') ∧
    (∀ m', remap m mapping c2n = .ok m' → m'.partial_charges ≠ none) := by
  constructor
  · intro hpc hn m' h
    unfold remap at h
    by_cases hv : m.virtual_sites.length ≠ 0
    · rw [if_pos hv] at h; cases h
    · rw [if_neg hv] at h
      by_cases hlen : mapping.length ≠ m.atoms.length
      · rw [if_pos hlen] at h; cases h
      · rw [if_neg hlen] at h
        split at h
        · cases h
        · split at h
          · cases h
          · split at h
            · cases h
            · rename_i nm4 hC
              exact remapCharges_none_errors m _ _ hpc hn nm4 hC
  · intro m' h
    unfold remap at h
    by_cases hv : m.virtual_sites.length ≠ 0
    · rw [if_pos hv] at h; cases h
    · rw [if_neg hv] at h
      by_cases hlen : mapping.length ≠ m.atoms.length
      · rw [if_pos hlen] at h; cases h
      · rw [if_neg hlen] at h
        split at h
        · cases h
        · split at h
          · cases h
          · split at h
            · cases h
            · rename_i nm4 hC
              split at h
              · cases h
              · rename_i nm5 hD
                cases h
                have h5 := remapConformers_charges _ _ _ _ hD
                have h4 := remapCharges_isSome _ _ _ _ hC
                simpa [h5] using h4

def wNoCharges : OFFMol := { atoms := [⟨6, 0, false, none, ""⟩] }

theorem remap_unconditional_charge_indexing_witness :
    wNoCharges.partial_charges = none ∧ 0 < wNoCharges.atoms.length ∧
    ∀ m', remap wNoCharges [(0, 0)] true ≠ .ok m' :=
  ⟨rfl, by decide,
   (remap_unconditional_charge_indexing wNoCharges [(0, 0)] true).1 rfl
     (by decide)⟩

/-- The reachable zero-atom molecule (`Molecule()`), charges never
computed. -/
def wEmptyMol : OFFMol := {}

/-- C9 (counterexample to the unamended claim): for the zero-atom molecule
whose charges were never computed, `remap` of the empty mapping does **not**
raise: the charge loop `for i in range(self.n_atoms)` never executes its
`None`-subscripting body, `np.zeros(0)` passes the `partial_charges` setter's
shape assertion, and `remap` returns a molecule whose charges are the empty
array (not `None`). -/
theorem remap_empty_chargeless_counterexample :
    wEmptyMol.partial_charges = none ∧ wEmptyMol.virtual_sites = [] ∧
    ∃ M, remap wEmptyMol [] true = .ok M ∧ M.partial_charges = some [] :=
  ⟨rfl, rfl, ⟨{ partial_charges := some ([] : List ℚ) }, by decide, rfl⟩⟩

/-! ## C5: Hill-formula fast rejection. -/

/-- C5: two molecules with different elemental composition — witnessed by
different Hill formulas, where the Hill formula lists C then H first and the
remaining elements alphabetically with counts appended when greater than one
(`toHillFormula`) — are never reported isomorphic: `are_isomorphic` returns
`False` with a `None` atom map regardless of the aromaticity, formal-charge,
bond-order and stereochemistry matching flags (and of `return_atom_map`). -/
theorem are_isomorphic_hill_reject (fl : MatchFlags) (ram : Bool)
    (m1 m2 : OFFMol) (h : toHillFormula m1 ≠ toHillFormula m2) :
    are_isomorphic fl ram m1 m2 = (false, none) := by
  simp [are_isomorphic, h]

def wCarbon : OFFMol := { atoms := [⟨6, 0, false, none, ""⟩] }

def wHydrogen : OFFMol := { atoms := [⟨1, 0, false, none, ""⟩] }

theorem are_isomorphic_hill_reject_witness :
    toHillFormula wCarbon ≠ toHillFormula wHydrogen ∧
    are_isomorphic
      { aromatic_matching := false, formal_charge_matching := false
        bond_order_matching := false, atom_stereochemistry_matching := false
        bond_stereochemistry_matching := false } true wCarbon wHydrogen =
      (false, none) :=
  ⟨by decide, are_isomorphic_hill_reject _ true wCarbon wHydrogen (by decide)⟩

/-! ## C2: structural mutation and the derived-topology caches. -/

/-- The observations of the C2 failing-input run. -/
structure C2Result where
  anglesBefore : Finset AngleT
  propersBefore : Option (Finset TorsionT)
  anglesAfter : Finset AngleT
  propersAfter : Option (Finset TorsionT)
  freshAngles : Finset AngleT
deriving DecidableEq

/-- The C2 failing input, executed step by step: build a 3-atom chain
`0–1–2`, read the `angles` and `propers` properties (which creates the
`_angles`/`_torsions`/`_bondedAtoms` cache attributes), then mutate the
molecule (add atom `3` and bond `2–3`) and read both properties again.
Returns the angles/propers before and after the mutation, and the angle set
a fresh computation over the post-mutation bond graph gives. -/
def c2Scenario : Except String C2Result :=
  let (m1, _) := addAtom ({} : OFFMol) 6 0 false
  let (m2, _) := addAtom m1 6 0 false
  let (m3, _) := addAtom m2 6 0 false
  match addBond m3 0 1 1 false with
  | .error e => .error e
  | .ok (m4, _) =>
      match addBond m4 1 2 1 false with
      | .error e => .error e
      | .ok (m5, _) =>
          let (m6, anglesBefore) := anglesAccessor m5
          let (m6b, propersBefore) := propersAccessor m6
          let (m7, _) := addAtom m6b 6 0 false
          match addBond m7 2 3 1 false with
          | .error e => .error e
          | .ok (m8, _) =>
              let (m9, anglesAfter) := anglesAccessor m8
              let (_, propersAfter) := propersAccessor m9
              .ok ⟨anglesBefore, propersBefore, anglesAfter, propersAfter,
                computeAngles m8.atoms.length (adjacencyOf m8.bonds)⟩

/-- C2 fails on the code: after the structural mutation, the previously
computed angle list is NOT cleared — `_invalidate_cached_properties` never
deletes the `_angles`, `_torsions` or `_bondedAtoms` attributes, so the
`angles` property still returns the stale pre-mutation set `{(0,1,2)}`
(missing the new angle `(1,2,3)` a fresh computation over the new bond graph
yields), and the `propers` property returns Python `None` (the invalidated
`_propers` value, never recomputed because the surviving `_torsions`
attribute suppresses `_construct_torsions` — so `n_propers` would crash on
`len(None)`).  Conformers and partial charges are cleared as claimed. -/
theorem c2_stale_derived_topology :
    c2Scenario =
      .ok ⟨{(0, 1, 2)}, some ∅, {(0, 1, 2)}, none,
        {(0, 1, 2), (1, 2, 3)}⟩ ∧
    ({(0, 1, 2)} : Finset AngleT) ≠ {(0, 1, 2), (1, 2, 3)} := by decide

/-! ## C6: virtual-site arity checks. -/

def wThreeAtoms : OFFMol :=
  { atoms := [⟨6, 0, false, none, ""⟩, ⟨1, 0, false, none, ""⟩,
      ⟨1, 0, false, none, ""⟩] }

/-- C6 as stated is false: a bond-charge virtual site with THREE atoms (not
the claimed exact arity of 2) is accepted and appended —
`BondChargeVirtualSite.__init__` has no atom-count assertion. -/
theorem bondcharge_arity_counterexample :
    addBondChargeVirtualSite wThreeAtoms [0, 1, 2] (7/10) {} =
      .ok (invalidateCachedProperties
        { wThreeAtoms with
          virtual_sites := [⟨.bondCharge, [0, 1, 2], none, none, none,
            none, 7/10, none, none⟩] }, 0) := by
  rfl

theorem vsiteBaseInitTail_ok_length (atoms : List ℕ) (a : VSiteArgs)
    (out : Option (List ℚ) × Option ℚ × Option ℚ × Option String)
    (h : vsiteBaseInitTail atoms a = .ok out) : 2 ≤ atoms.length := by
  unfold vsiteBaseInitTail at h
  split at h
  · cases h
  · split at h
    · assumption
    · cases h

theorem vsiteBaseInit_ok_length (atoms : List ℕ) (a : VSiteArgs)
    (out : Option (List ℚ) × Option ℚ × Option ℚ × Option String)
    (h : vsiteBaseInit atoms a = .ok out) : 2 ≤ atoms.length := by
  unfold vsiteBaseInit at h
  split at h
  · split at h
    · exact vsiteBaseInitTail_ok_length atoms a out h
    · cases h
  · exact vsiteBaseInitTail_ok_length atoms a out h

/-- C6 amended: an atom list not matching the subtype's enforced arity fails
with an error before the site is appended — exactly 3 atoms for a monovalent
or divalent lone pair, exactly 4 for a trivalent lone pair, and (the
amendment) at least 2 for a bond-charge site, whose constructor checks no
exact count. -/
theorem vsite_arity_enforced (m : OFFMol) (atoms : List ℕ)
    (d oop ip : ℚ) (a : VSiteArgs)
    (hidx : atoms.all (· < m.atoms.length) = true) :
    (atoms.length ≠ 3 →
      ∃ e, addMonovalentLonePairVirtualSite m atoms d oop ip a = .error e) ∧
    (atoms.length ≠ 3 →
      ∃ e, addDivalentLonePairVirtualSite m atoms d oop ip a = .error e) ∧
    (atoms.length ≠ 4 →
      ∃ e, addTrivalentLonePairVirtualSite m atoms d oop ip a = .error e) ∧
    (atoms.length < 2 →
      ∃ e, addBondChargeVirtualSite m atoms d a = .error e) := by
  refine ⟨fun h3 => ?_, fun h3 => ?_, fun h4 => ?_, fun h2 => ?_⟩
  · unfold addMonovalentLonePairVirtualSite
    rw [if_pos hidx, if_neg h3]
    exact ⟨_, rfl⟩
  · unfold addDivalentLonePairVirtualSite
    rw [if_pos hidx, if_neg h3]
    exact ⟨_, rfl⟩
  · unfold addTrivalentLonePairVirtualSite
    rw [if_pos hidx, if_neg h4]
    exact ⟨_, rfl⟩
  · unfold addBondChargeVirtualSite
    rw [if_pos hidx]
    cases hb : vsiteBaseInit atoms a with
    | error e => exact ⟨e, rfl⟩
    | ok out =>
        have := vsiteBaseInit_ok_length atoms a out hb
        omega

theorem vsite_arity_enforced_witness :
    ([0, 1] : List ℕ).all (· < wThreeAtoms.atoms.length) = true ∧
    (([0, 1] : List ℕ).length ≠ 3) ∧
    ∃ e, addMonovalentLonePairVirtualSite wThreeAtoms [0, 1] 1 2 3 {} =
      .error e :=
  ⟨by decide, by decide,
    (vsite_arity_enforced wThreeAtoms [0, 1] 1 2 3 {} (by decide)).1
      (by decide)⟩

/-! ## C4: `ToolkitRegistry.call` fallback protocol. -/

theorem callGo_cons_none {ε ρ : Type} (meth : String)
    (preds : List (ε → Bool)) (w : TKWrapper ε ρ) (ws : List (TKWrapper ε ρ))
    (errs : List (String × ε)) (hlk : w.methods.lookup meth = none) :
    callGo meth preds (w :: ws) errs = callGo meth preds ws errs := by
  simp only [callGo]
  rw [hlk]

theorem callGo_cons_ok {ε ρ : Type} (meth : String) (preds : List (ε → Bool))
    (w : TKWrapper ε ρ) (ws : List (TKWrapper ε ρ))
    (errs : List (String × ε)) (r : ρ)
    (hlk : w.methods.lookup meth = some (.ok r)) :
    callGo meth preds (w :: ws) errs = .ok r := by
  simp only [callGo]
  rw [hlk]

theorem callGo_cons_error {ε ρ : Type} (meth : String)
    (preds : List (ε → Bool)) (w : TKWrapper ε ρ) (ws : List (TKWrapper ε ρ))
    (errs : List (String × ε)) (e : ε)
    (hlk : w.methods.lookup meth = some (.error e)) :
    callGo meth preds (w :: ws) errs =
      if (preds.any fun p => p e) = true then .raised e
      else callGo meth preds ws (errs ++ [(w.name, e)]) := by
  simp only [callGo]
  rw [hlk]

theorem callGo_skip {ε ρ : Type} (meth : String) (preds : List (ε → Bool))
    (l rest : List (TKWrapper ε ρ)) (errs : List (String × ε))
    (hl : ∀ w ∈ l, hasMethod w meth = false) :
    callGo meth preds (l ++ rest) errs = callGo meth preds rest errs := by
  induction l with
  | nil => rfl
  | cons w ws ih =>
      have hw : w.methods.lookup meth = none := by
        have h := hl w (List.mem_cons_self w ws)
        unfold hasMethod at h
        cases hlk : w.methods.lookup meth with
        | none => rfl
        | some b => rw [hlk] at h; cases h
      rw [List.cons_append, callGo_cons_none meth preds w _ errs hw]
      exact ih fun w' hw' => hl w' (List.mem_cons_of_mem w hw')

theorem callGo_all_fail {ε ρ : Type} (meth : String)
    (preds : List (ε → Bool)) :
    ∀ (reg : List (TKWrapper ε ρ)) (errs : List (String × ε)),
    (∀ w ∈ reg, ∀ b, w.methods.lookup meth = some b →
      ∃ e, b = .error e ∧ (preds.any fun p => p e) = false) →
    callGo meth preds reg errs =
      .aggregateError (errs ++ erredList meth reg) := by
  intro reg
  induction reg with
  | nil =>
      intro errs _
      simp [callGo, erredList]
  | cons w ws ih =>
      intro errs h
      cases hlk : w.methods.lookup meth with
      | none =>
          rw [callGo_cons_none meth preds w ws errs hlk]
          rw [ih errs fun w' hw' => h w' (List.mem_cons_of_mem w hw')]
          congr 1
          simp [erredList, List.filterMap_cons, hlk]
      | some b =>
          obtain ⟨e, hb, hpe⟩ := h w (List.mem_cons_self w ws) b hlk
          subst hb
          rw [callGo_cons_error meth preds w ws errs e hlk]
          rw [if_neg (by simp [hpe])]
          rw [ih (errs ++ [(w.name, e)])
            fun w' hw' => h w' (List.mem_cons_of_mem w hw')]
          congr 1
          simp [erredList, List.filterMap_cons, hlk]

/-- C4: for a registry whose precedence list has `W1` before `W2` (no earlier
wrapper providing capability `X`), `call('X', ...)`:
(0) returns `W1`'s result when `W1` succeeds (it is invoked first);
(1) immediately propagates a `W1` exception whose type matches
`raise_exception_types` (whose default `None` means `[Exception]`, matching
every exception);
(2) with `raise_exception_types=[]` records `W1`'s exception, tries `W2`,
and returns `W2`'s result without propagating `W1`'s exception;
(3) when every wrapper providing `X` fails with a non-listed exception,
raises a single aggregate error enumerating each wrapper tried and its
exception, in precedence order. -/
theorem registryCall_fallback_protocol {ε ρ : Type}
    (l1 l2 l3 : List (TKWrapper ε ρ)) (w1 w2 : TKWrapper ε ρ) (meth : String)
    (b1 b2 : Except ε ρ)
    (h1 : ∀ w ∈ l1, hasMethod w meth = false)
    (h2 : ∀ w ∈ l2, hasMethod w meth = false)
    (hw1 : w1.methods.lookup meth = some b1)
    (hw2 : w2.methods.lookup meth = some b2) :
    (∀ r : ρ, b1 = .ok r →
      ∀ rt, registryCall (l1 ++ w1 :: (l2 ++ w2 :: l3)) meth rt = .ok r) ∧
    (∀ (rt : Option (List (ε → Bool))) (e : ε), b1 = .error e →
      ((rt.getD [fun _ => true]).any fun p => p e) = true →
      registryCall (l1 ++ w1 :: (l2 ++ w2 :: l3)) meth rt = .raised e) ∧
    (∀ (e : ε) (r : ρ), b1 = .error e → b2 = .ok r →
      registryCall (l1 ++ w1 :: (l2 ++ w2 :: l3)) meth (some []) = .ok r) ∧
    (∀ (reg : List (TKWrapper ε ρ)) (preds : List (ε → Bool)),
      (∀ w ∈ reg, ∀ b, w.methods.lookup meth = some b →
        ∃ e, b = .error e ∧ (preds.any fun p => p e) = false) →
      registryCall reg meth (some preds) =
        .aggregateError (erredList meth reg)) := by
  refine ⟨?_, ?_, ?_, ?_⟩
  · intro r hb1 rt
    subst hb1
    show callGo meth (rt.getD [fun _ => true]) _ [] = _
    rw [callGo_skip meth _ l1 _ [] h1,
      callGo_cons_ok meth _ w1 _ [] r hw1]
  · intro rt e hb1 hp
    subst hb1
    show callGo meth (rt.getD [fun _ => true]) _ [] = _
    rw [callGo_skip meth _ l1 _ [] h1,
      callGo_cons_error meth _ w1 _ [] e hw1, if_pos hp]
  · intro e r hb1 hb2
    subst hb1
    subst hb2
    show callGo meth ([] : List (ε → Bool)) _ [] = _
    rw [callGo_skip meth _ l1 _ [] h1,
      callGo_cons_error meth _ w1 _ [] e hw1, if_neg (by simp),
      callGo_skip meth _ l2 _ _ h2,
      callGo_cons_ok meth _ w2 _ _ r hw2]
  · intro reg preds hall
    show callGo meth preds reg [] = _
    rw [callGo_all_fail meth preds reg [] hall]
    rfl

def wReg1 : TKWrapper String ℕ :=
  ⟨"W1", [("X", .error "ChargeCalculationError: SQM did not converge")]⟩

def wReg2 : TKWrapper String ℕ := ⟨"W2", [("X", .ok 42)]⟩

def wReg2e : TKWrapper String ℕ := ⟨"W2", [("X", .error "also failed")]⟩

theorem registryCall_fallback_protocol_witness :
    registryCall [wReg1, wReg2] "X" none =
      .raised "ChargeCalculationError: SQM did not converge" ∧
    registryCall [wReg1, wReg2] "X" (some []) = .ok 42 ∧
    registryCall [wReg1, wReg2e] "X" (some []) =
      .aggregateError
        [("W1", "ChargeCalculationError: SQM did not converge"),
         ("W2", "also failed")] := by
  have base := registryCall_fallback_protocol ([] : List (TKWrapper String ℕ))
    [] [] wReg1 wReg2 "X"
    (.error "ChargeCalculationError: SQM did not converge") (.ok 42)
    (fun w hw => absurd hw (List.not_mem_nil w))
    (fun w hw => absurd hw (List.not_mem_nil w)) rfl rfl
  refine ⟨?_, ?_, ?_⟩
  · have := base.2.1 none "ChargeCalculationError: SQM did not converge" rfl
      (by decide)
    simpa using this
  · have := base.2.2.1 "ChargeCalculationError: SQM did not converge" 42 rfl
      rfl
    simpa using this
  · have := base.2.2.2 [wReg1, wReg2e] [] ?_
    · simpa using this
    · intro w hw b hb
      rcases List.mem_pair.mp hw with rfl | rfl
      · cases hb
        exact ⟨_, rfl, rfl⟩
      · cases hb
        exact ⟨_, rfl, rfl⟩

/-! ## C8: isomorphism symmetry and self-isomorphism. -/

theorem decide_eq_comm {α : Type} [DecidableEq α] (a b : α) :
    decide (a = b) = decide (b = a) := by
  by_cases h : a = b
  · simp [h]
  · simp [h, Ne.symm h]

theorem nodeMatch_comm (fl : MatchFlags) (x y : NodeLabel) :
    nodeMatch fl x y = nodeMatch fl y x := by
  unfold nodeMatch
  rw [decide_eq_comm x.atomic_number y.atomic_number,
    decide_eq_comm x.is_aromatic y.is_aromatic,
    decide_eq_comm x.formal_charge y.formal_charge,
    decide_eq_comm x.stereochemistry y.stereochemistry]

theorem edgeMatchFunc_comm (fl : MatchFlags) (x y : EdgeLabel) :
    edgeMatchFunc fl x y = edgeMatchFunc fl y x := by
  unfold edgeMatchFunc
  rw [decide_eq_comm x.is_aromatic y.is_aromatic,
    decide_eq_comm x.bond_order y.bond_order,
    decide_eq_comm x.stereochemistry y.stereochemistry]

theorem edgeOptMatch_comm (fl : MatchFlags) (a b : Option EdgeLabel) :
    edgeOptMatch fl a b = edgeOptMatch fl b a := by
  cases a <;> cases b <;> simp [edgeOptMatch, edgeMatchFunc_comm]

theorem nodeMatch_refl (fl : MatchFlags) (x : NodeLabel) :
    nodeMatch fl x x = true := by
  unfold nodeMatch
  simp

theorem edgeMatchFunc_refl (fl : MatchFlags) (x : EdgeLabel) :
    edgeMatchFunc fl x x = true := by
  unfold edgeMatchFunc
  cases fl.aromatic_matching <;> cases fl.bond_order_matching <;>
    cases fl.bond_stereochemistry_matching <;> simp

theorem edgeOptMatch_refl (fl : MatchFlags) (a : Option EdgeLabel) :
    edgeOptMatch fl a a = true := by
  cases a <;> simp [edgeOptMatch, edgeMatchFunc_refl]

theorem isIsomorphicTo_symm_imp (fl : MatchFlags) (A B : OFFMol) :
    IsIsomorphicTo fl A B → IsIsomorphicTo fl B A := by
  rintro ⟨σ, hn, he⟩
  refine ⟨σ.symm, fun i => ?_, fun i j => ?_⟩
  · rw [nodeMatch_comm]
    have h := hn (σ.symm i)
    simpa using h
  · rw [edgeOptMatch_comm]
    have h := he (σ.symm i) (σ.symm j)
    simpa using h

/-- C8: `are_isomorphic(A, B, flags)` equals `are_isomorphic(B, A, flags)`
for every pair of molecules and every combination of the matching flags
(both components of the returned pair, with the atom map not requested); and
every molecule is isomorphic to a deep copy of itself under the default
flags (a deep copy has the same stored data, so it is the same value of the
embedding). -/
theorem are_isomorphic_symm_and_refl :
    (∀ (fl : MatchFlags) (A B : OFFMol),
      are_isomorphic fl false A B = are_isomorphic fl false B A) ∧
    (∀ m : OFFMol, (are_isomorphic {} false m m).1 = true) := by
  constructor
  · intro fl A B
    unfold are_isomorphic
    by_cases h : toHillFormula A ≠ toHillFormula B
    · rw [if_pos h, if_pos (Ne.symm h)]
    · rw [if_neg h, if_neg fun hh => h (Ne.symm hh)]
      simp only [Bool.and_false, Bool.false_eq_true, if_false]
      have hiff : IsIsomorphicTo fl A B ↔ IsIsomorphicTo fl B A :=
        ⟨isIsomorphicTo_symm_imp fl A B, isIsomorphicTo_symm_imp fl B A⟩
      rw [decide_eq_decide.mpr hiff]
  · intro m
    unfold are_isomorphic
    rw [if_neg (by simp)]
    simp only [Bool.and_false, Bool.false_eq_true, if_false]
    exact decide_eq_true
      ⟨Equiv.refl _, fun i => nodeMatch_refl _ _,
        fun i j => edgeOptMatch_refl _ _⟩

/-! ## C1: serialization round trip. -/

theorem addAtomStep_fields (acc : OFFMol) (a : AtomSpec) :
    (addAtomStep acc a).atoms = acc.atoms ++ [a] ∧
    (addAtomStep acc a).name = acc.name ∧
    (addAtomStep acc a).virtual_sites = acc.virtual_sites ∧
    (addAtomStep acc a).bonds = acc.bonds ∧
    (addAtomStep acc a).properties = acc.properties ∧
    (addAtomStep acc a).partial_charges = none ∧
    (addAtomStep acc a).conformers = none :=
  ⟨rfl, rfl, rfl, rfl, rfl, rfl, rfl⟩

theorem foldl_addAtomStep_spec :
    ∀ (l : List AtomSpec) (acc : OFFMol),
    (l.foldl addAtomStep acc).atoms = acc.atoms ++ l ∧
    (l.foldl addAtomStep acc).name = acc.name ∧
    (l.foldl addAtomStep acc).virtual_sites = acc.virtual_sites ∧
    (l.foldl addAtomStep acc).bonds = acc.bonds ∧
    (l.foldl addAtomStep acc).properties = acc.properties ∧
    (l.foldl addAtomStep acc).partial_charges =
      (if l.isEmpty then acc.partial_charges else none) ∧
    (l.foldl addAtomStep acc).conformers =
      (if l.isEmpty then acc.conformers else none) := by
  intro l
  induction l with
  | nil => intro acc; simp
  | cons x xs ih =>
      intro acc
      obtain ⟨i1, i2, i3, i4, i5, i6, i7⟩ := ih (addAtomStep acc x)
      obtain ⟨a1, a2, a3, a4, a5, a6, a7⟩ := addAtomStep_fields acc x
      refine ⟨?_, ?_, ?_, ?_, ?_, ?_, ?_⟩ <;>
        simp only [List.foldl_cons, List.isEmpty_cons, Bool.false_eq_true,
          if_false] at *
      · rw [i1, a1]; simp
      · rw [i2, a2]
      · rw [i3, a3]
      · rw [i4, a4]
      · rw [i5, a5]
      · rw [i6]; cases xs.isEmpty <;> simp [a6]
      · rw [i7]; cases xs.isEmpty <;> simp [a7]

theorem serialize_numpy_conf_length (c : List Vec3) :
    (serialize_numpy_conf c).length = 3 * c.length := by
  induction c with
  | nil => rfl
  | cons v rest ih =>
      simp only [serialize_numpy_conf, List.flatMap_cons] at *
      simp [ih]
      omega

theorem serialize_numpy_conf_getD (c : List Vec3) :
    ∀ (i : ℕ) (hi : i < c.length),
    (serialize_numpy_conf c).getD (3 * i) 0 = (c.get ⟨i, hi⟩).x ∧
    (serialize_numpy_conf c).getD (3 * i + 1) 0 = (c.get ⟨i, hi⟩).y ∧
    (serialize_numpy_conf c).getD (3 * i + 2) 0 = (c.get ⟨i, hi⟩).z := by
  induction c with
  | nil => intro i hi; simp at hi
  | cons v rest ih =>
      intro i hi
      cases i with
      | zero => simp [serialize_numpy_conf]
      | succ i' =>
          have hi' : i' < rest.length := by simpa using hi
          obtain ⟨e1, e2, e3⟩ := ih i' hi'
          have h0 : 3 * (i' + 1) = 3 * i' + 2 + 1 := by omega
          have h1 : 3 * (i' + 1) + 1 = 3 * i' + 2 + 1 + 1 := by omega
          have h2 : 3 * (i' + 1) + 2 = 3 * i' + 2 + 1 + 1 + 1 := by omega
          refine ⟨?_, ?_, ?_⟩
          · rw [h0]
            simpa [serialize_numpy_conf] using e1
          · rw [h1]
            simpa [serialize_numpy_conf] using e2
          · rw [h2]
            simpa [serialize_numpy_conf] using e3

theorem deserialize_serialize_conf (c : List Vec3) (n : ℕ)
    (h : c.length = n) :
    deserialize_numpy_conf (serialize_numpy_conf c) n = some c := by
  subst h
  unfold deserialize_numpy_conf
  rw [if_pos (serialize_numpy_conf_length c)]
  congr 1
  refine List.ext_get (by simp) ?_
  intro i h1 h2
  have hi : i < c.length := by simpa using h2
  obtain ⟨e1, e2, e3⟩ := serialize_numpy_conf_getD c i hi
  simp only [List.get_eq_getElem, List.getElem_map, List.getElem_range]
  rw [e1, e2, e3]
  rfl

theorem deserialize_serialize_charges (cs : List ℚ) (n : ℕ)
    (h : cs.length = n) :
    deserialize_numpy_charges (serialize_numpy_charges cs) n = some cs := by
  subst h
  unfold deserialize_numpy_charges serialize_numpy_charges
  simp

theorem deserializeConformers_roundtrip (n : ℕ) :
    ∀ (confs : List (List Vec3)), (∀ c ∈ confs, c.length = n) →
    deserializeConformers n (confs.map serialize_numpy_conf) = .ok confs := by
  intro confs
  induction confs with
  | nil => intro _; rfl
  | cons c rest ih =>
      intro h
      simp only [List.map_cons, deserializeConformers]
      rw [deserialize_serialize_conf c n (h c (List.mem_cons_self c rest))]
      rw [ih fun c' hc' => h c' (List.mem_cons_of_mem c hc')]
      rfl

theorem vsiteBaseInit_roundtrip (atoms : List ℕ) (ci : Option (List ℚ))
    (eps sig : Option ℚ) (nm : Option String)
    (hlen : 2 ≤ atoms.length) (hvdw : eps.isSome = sig.isSome)
    (hci : ∀ l ∈ ci, l.length = atoms.length) :
    vsiteBaseInit atoms
      { charge_increments := ci, epsilon := eps, sigma := sig
        rmin_half := none, name := nm } = .ok (ci, eps, sig, nm) := by
  have htail : vsiteBaseInitTail atoms
      { charge_increments := ci, epsilon := eps, sigma := sig
        rmin_half := none, name := nm } = .ok (ci, eps, sig, nm) := by
    cases eps with
    | some e =>
        cases sig with
        | some s => simp [vsiteBaseInitTail, vdwSigma, hlen]
        | none => simp at hvdw
    | none =>
        cases sig with
        | some s => simp at hvdw
        | none => simp [vsiteBaseInitTail, vdwSigma, hlen]
  unfold vsiteBaseInit
  cases ci with
  | none => exact htail
  | some l =>
      show (if l.length = atoms.length then _ else _) = _
      rw [if_pos (hci l rfl)]
      exact htail

theorem addBondChargeVirtualSite_roundtrip (acc : OFFMol) (atoms : List ℕ)
    (dist : ℚ) (ci : Option (List ℚ)) (eps sig : Option ℚ)
    (nm : Option String)
    (hatoms : ∀ i ∈ atoms, i < acc.atoms.length)
    (hlen : 2 ≤ atoms.length) (hvdw : eps.isSome = sig.isSome)
    (hci : ∀ l ∈ ci, l.length = atoms.length) :
    addBondChargeVirtualSite acc atoms dist
      { charge_increments := ci, epsilon := eps, sigma := sig
        rmin_half := none, name := nm } =
      .ok (invalidateCachedProperties
        { acc with virtual_sites := acc.virtual_sites ++
            [⟨.bondCharge, atoms, ci, eps, sig, nm, dist, none, none⟩] },
        acc.virtual_sites.length) := by
  unfold addBondChargeVirtualSite
  rw [if_pos (by
    rw [List.all_eq_true]
    intro i hi
    exact decide_eq_true (hatoms i hi))]
  rw [vsiteBaseInit_roundtrip atoms ci eps sig nm hlen hvdw hci]

theorem addMonovalentLonePairVirtualSite_roundtrip (acc : OFFMol)
    (atoms : List ℕ) (dist oop ip : ℚ) (ci : Option (List ℚ))
    (eps sig : Option ℚ) (nm : Option String)
    (hatoms : ∀ i ∈ atoms, i < acc.atoms.length)
    (hlen : atoms.length = 3) (hvdw : eps.isSome = sig.isSome)
    (hci : ∀ l ∈ ci, l.length = atoms.length) :
    addMonovalentLonePairVirtualSite acc atoms dist oop ip
      { charge_increments := ci, epsilon := eps, sigma := sig
        rmin_half := none, name := nm } =
      .ok (invalidateCachedProperties
        { acc with virtual_sites := acc.virtual_sites ++
            [⟨.monovalentLonePair, atoms, ci, eps, sig, nm, dist,
              some oop, some ip⟩] },
        acc.virtual_sites.length) := by
  unfold addMonovalentLonePairVirtualSite
  rw [if_pos (by
    rw [List.all_eq_true]
    intro i hi
    exact decide_eq_true (hatoms i hi))]
  rw [if_pos hlen]
  rw [vsiteBaseInit_roundtrip atoms ci eps sig nm (by omega) hvdw hci]

theorem addDivalentLonePairVirtualSite_roundtrip (acc : OFFMol)
    (atoms : List ℕ) (dist oop ip : ℚ) (ci : Option (List ℚ))
    (eps sig : Option ℚ) (nm : Option String)
    (hatoms : ∀ i ∈ atoms, i < acc.atoms.length)
    (hlen : atoms.length = 3) (hvdw : eps.isSome = sig.isSome)
    (hci : ∀ l ∈ ci, l.length = atoms.length) :
    addDivalentLonePairVirtualSite acc atoms dist oop ip
      { charge_increments := ci, epsilon := eps, sigma := sig
        rmin_half := none, name := nm } =
      .ok (invalidateCachedProperties
        { acc with virtual_sites := acc.virtual_sites ++
            [⟨.divalentLonePair, atoms, ci, eps, sig, nm, dist,
              some oop, some ip⟩] },
        acc.virtual_sites.length) := by
  unfold addDivalentLonePairVirtualSite
  rw [if_pos (by
    rw [List.all_eq_true]
    intro i hi
    exact decide_eq_true (hatoms i hi))]
  rw [if_pos hlen]
  rw [vsiteBaseInit_roundtrip atoms ci eps sig nm (by omega) hvdw hci]

theorem addTrivalentLonePairVirtualSite_roundtrip (acc : OFFMol)
    (atoms : List ℕ) (dist oop ip : ℚ) (ci : Option (List ℚ))
    (eps sig : Option ℚ) (nm : Option String)
    (hatoms : ∀ i ∈ atoms, i < acc.atoms.length)
    (hlen : atoms.length = 4) (hvdw : eps.isSome = sig.isSome)
    (hci : ∀ l ∈ ci, l.length = atoms.length) :
    addTrivalentLonePairVirtualSite acc atoms dist oop ip
      { charge_increments := ci, epsilon := eps, sigma := sig
        rmin_half := none, name := nm } =
      .ok (invalidateCachedProperties
        { acc with virtual_sites := acc.virtual_sites ++
            [⟨.trivalentLonePair, atoms, ci, eps, sig, nm, dist,
              some oop, some ip⟩] },
        acc.virtual_sites.length) := by
  unfold addTrivalentLonePairVirtualSite
  rw [if_pos (by
    rw [List.all_eq_true]
    intro i hi
    exact decide_eq_true (hatoms i hi))]
  rw [if_pos hlen]
  rw [vsiteBaseInit_roundtrip atoms ci eps sig nm (by omega) hvdw hci]

theorem addVSiteFromDict_roundtrip (acc : OFFMol) (v : VSiteSpec)
    (hwf : wfVSite acc.atoms.length v) :
    addVSiteFromDict acc (vsiteToDict v) =
      .ok (invalidateCachedProperties
        { acc with virtual_sites := acc.virtual_sites ++ [v] }) := by
  obtain ⟨hatoms, harity, hvdw, hci, hbc, hlp⟩ := hwf
  cases v with
  | mk kind atoms ci eps sig nm dist oop ip =>
      cases kind with
      | bondCharge =>
          obtain ⟨hoop, hip⟩ := hbc rfl
          subst hoop
          subst hip
          show (addBondChargeVirtualSite acc atoms dist
            { charge_increments := ci, epsilon := eps, sigma := sig
              rmin_half := none, name := nm }).map (·.1) = _
          rw [addBondChargeVirtualSite_roundtrip acc atoms dist ci eps sig nm
            hatoms harity hvdw hci]
          rfl
      | monovalentLonePair =>
          obtain ⟨hoop, hip⟩ := hlp (by simp)
          cases oop with
          | none => simp at hoop
          | some o =>
              cases ip with
              | none => simp at hip
              | some ipv =>
                  show (addMonovalentLonePairVirtualSite acc atoms dist o ipv
                    { charge_increments := ci, epsilon := eps, sigma := sig
                      rmin_half := none, name := nm }).map (·.1) = _
                  rw [addMonovalentLonePairVirtualSite_roundtrip acc atoms
                    dist o ipv ci eps sig nm hatoms harity hvdw hci]
                  rfl
      | divalentLonePair =>
          obtain ⟨hoop, hip⟩ := hlp (by simp)
          cases oop with
          | none => simp at hoop
          | some o =>
              cases ip with
              | none => simp at hip
              | some ipv =>
                  show (addDivalentLonePairVirtualSite acc atoms dist o ipv
                    { charge_increments := ci, epsilon := eps, sigma := sig
                      rmin_half := none, name := nm }).map (·.1) = _
                  rw [addDivalentLonePairVirtualSite_roundtrip acc atoms
                    dist o ipv ci eps sig nm hatoms harity hvdw hci]
                  rfl
      | trivalentLonePair =>
          obtain ⟨hoop, hip⟩ := hlp (by simp)
          cases oop with
          | none => simp at hoop
          | some o =>
              cases ip with
              | none => simp at hip
              | some ipv =>
                  show (addTrivalentLonePairVirtualSite acc atoms dist o ipv
                    { charge_increments := ci, epsilon := eps, sigma := sig
                      rmin_half := none, name := nm }).map (·.1) = _
                  rw [addTrivalentLonePairVirtualSite_roundtrip acc atoms
                    dist o ipv ci eps sig nm hatoms harity hvdw hci]
                  rfl

theorem bindE_ok (v : OFFMol) (f : OFFMol → Except String OFFMol) :
    bindE (.ok v) f = f v := rfl

theorem foldE_addVSiteFromDict_spec :
    ∀ (V : List VSiteSpec) (acc : OFFMol),
    (∀ v ∈ V, wfVSite acc.atoms.length v) →
    ∃ r, foldE addVSiteFromDict acc (V.map vsiteToDict) = .ok r ∧
      r.atoms = acc.atoms ∧ r.name = acc.name ∧
      r.virtual_sites = acc.virtual_sites ++ V ∧ r.bonds = acc.bonds ∧
      r.properties = acc.properties ∧
      r.partial_charges = (if V.isEmpty then acc.partial_charges else none) ∧
      r.conformers = (if V.isEmpty then acc.conformers else none) := by
  intro V
  induction V with
  | nil =>
      intro acc _
      exact ⟨acc, rfl, rfl, rfl, by simp, rfl, rfl, by simp, by simp⟩
  | cons v vs ih =>
      intro acc h
      have hstep := addVSiteFromDict_roundtrip acc v
        (h v (List.mem_cons_self v vs))
      obtain ⟨r, hr, f1, f2, f3, f4, f5, f6, f7⟩ :=
        ih (invalidateCachedProperties
          { acc with virtual_sites := acc.virtual_sites ++ [v] })
          (fun v' hv' => h v' (List.mem_cons_of_mem v hv'))
      refine ⟨r, ?_, ?_, ?_, ?_, ?_, ?_, ?_, ?_⟩
      · simp only [List.map_cons, foldE]
        rw [hstep]
        exact hr
      · exact f1
      · exact f2
      · rw [f3]
        show (acc.virtual_sites ++ [v]) ++ vs = acc.virtual_sites ++ v :: vs
        simp
      · exact f4
      · exact f5
      · rw [f6]
        cases vs.isEmpty <;> simp [invalidateCachedProperties]
      · rw [f7]
        cases vs.isEmpty <;> simp [invalidateCachedProperties]

theorem foldE_addBondStep_spec :
    ∀ (B : List BondSpec) (acc : OFFMol),
    (∀ b ∈ B, wfBond acc.atoms.length b) →
    List.Pairwise (fun b1 b2 => ¬ samePair b1 b2) (acc.bonds ++ B) →
    ∃ r, foldE addBondStep acc B = .ok r ∧
      r.atoms = acc.atoms ∧ r.name = acc.name ∧
      r.virtual_sites = acc.virtual_sites ∧ r.bonds = acc.bonds ++ B ∧
      r.properties = acc.properties ∧
      r.partial_charges = (if B.isEmpty then acc.partial_charges else none) ∧
      r.conformers = (if B.isEmpty then acc.conformers else none) := by
  intro B
  induction B with
  | nil =>
      intro acc _ _
      exact ⟨acc, rfl, rfl, rfl, rfl, by simp, rfl, by simp, by simp⟩
  | cons b bs ih =>
      intro acc hwf hpair
      obtain ⟨h1, h2, h3⟩ := hwf b (List.mem_cons_self b bs)
      have hnb : isBondedTo acc b.atom1 b.atom2 = false := by
        by_cases hb : isBondedTo acc b.atom1 b.atom2 = true
        · exfalso
          obtain ⟨x, hx, hcase⟩ := (isBondedTo_iff acc b.atom1 b.atom2).mp hb
          have hnp := (List.pairwise_append.mp hpair).2.2 x hx b
            (List.mem_cons_self b bs)
          exact hnp hcase
        · exact Bool.eq_false_iff.mpr hb
      have hstep : addBondStep acc b =
          .ok (invalidateCachedProperties
            { acc with bonds := acc.bonds ++ [b] }) := by
        unfold addBondStep addBond
        rw [if_pos h1, if_pos h2, if_neg h3, if_neg (by simp [hnb])]
        rfl
      obtain ⟨r, hr, f1, f2, f3, f4, f5, f6, f7⟩ :=
        ih (invalidateCachedProperties { acc with bonds := acc.bonds ++ [b] })
          (fun b' hb' => hwf b' (List.mem_cons_of_mem b hb'))
          (by
            have he : (acc.bonds ++ [b]) ++ bs = acc.bonds ++ b :: bs := by
              simp
            show List.Pairwise _ ((acc.bonds ++ [b]) ++ bs)
            rw [he]
            exact hpair)
      refine ⟨r, ?_, ?_, ?_, ?_, ?_, ?_, ?_, ?_⟩
      · simp only [foldE]
        rw [hstep]
        exact hr
      · exact f1
      · exact f2
      · exact f3
      · rw [f4]
        show (acc.bonds ++ [b]) ++ bs = acc.bonds ++ b :: bs
        simp
      · exact f5
      · rw [f6]
        cases bs.isEmpty <;> simp [invalidateCachedProperties]
      · rw [f7]
        cases bs.isEmpty <;> simp [invalidateCachedProperties]

theorem chargesFromDict_roundtrip (m : OFFMol) (m4 : OFFMol)
    (hn : m4.atoms.length = m.atoms.length)
    (hch : ∀ cs ∈ m.partial_charges, cs.length = m.atoms.length) :
    chargesFromDict (toDict m) m4 =
      .ok { m4 with partial_charges := m.partial_charges } := by
  have hd : (toDict m).partial_charges =
      m.partial_charges.map serialize_numpy_charges := rfl
  unfold chargesFromDict
  rw [hd]
  cases hpc : m.partial_charges with
  | none => rfl
  | some cs =>
      have hlen : cs.length = m4.atoms.length := by
        rw [hn]
        exact hch cs hpc
      show (match deserialize_numpy_charges (serialize_numpy_charges cs)
          m4.atoms.length with
        | some cs => Except.ok { m4 with partial_charges := some cs }
        | none =>
            Except.error "ValueError: cannot reshape array") = _
      rw [deserialize_serialize_charges cs m4.atoms.length hlen]

theorem conformersFromDict_roundtrip (m : OFFMol) (m5 : OFFMol)
    (hn : m5.atoms.length = m.atoms.length)
    (hcf : ∀ confs ∈ m.conformers, ∀ c ∈ confs,
      c.length = m.atoms.length) :
    conformersFromDict (toDict m) m5 =
      .ok { m5 with conformers := m.conformers } := by
  have hd : (toDict m).conformers =
      m.conformers.map fun confs => confs.map serialize_numpy_conf := rfl
  unfold conformersFromDict
  rw [hd]
  cases hpc : m.conformers with
  | none => rfl
  | some confs =>
      show (match deserializeConformers m5.atoms.length
          (confs.map serialize_numpy_conf) with
        | .ok confs => Except.ok { m5 with conformers := some confs }
        | .error e => Except.error e) = _
      rw [hn, deserializeConformers_roundtrip m.atoms.length confs
        (hcf confs hpc)]

/-- C1: for every well-formed molecule state — as produced by the
add-atom/add-bond/add-virtual-site/add-conformer API, optionally with partial
charges and properties set — `from_dict(m.to_dict())` succeeds and rebuilds a
molecule whose structural and numeric content (`OFFMol.data`: name, atoms
with all per-atom fields in order, bonds with their connectivity in order,
virtual sites in order with the correct concrete subtype, conformer arrays,
the partial-charge array with `None` preserved, and the properties map) is
identical to `m`'s. -/
theorem fromDict_toDict_roundtrip (m : OFFMol) (hwf : WF m) :
    ∃ m', fromDict (toDict m) = .ok m' ∧ m'.data = m.data := by
  obtain ⟨hbonds, hpair, hvsites, hcharges, hconfs⟩ := hwf
  have hdn : (toDict m).name = m.name := rfl
  have hda : (toDict m).atoms = m.atoms := rfl
  have hdv : (toDict m).virtual_sites = m.virtual_sites.map vsiteToDict := rfl
  have hdb : (toDict m).bonds = m.bonds := rfl
  have hdp : (toDict m).properties = m.properties := rfl
  obtain ⟨a1, a2, a3, a4, a5, a6, a7⟩ :=
    foldl_addAtomStep_spec m.atoms { name := m.name }
  have hn2 : (m.atoms.foldl addAtomStep
      ({ name := m.name } : OFFMol)).atoms.length = m.atoms.length := by
    rw [a1]
    simp
  obtain ⟨m3, h3, b1, b2, b3, b4, b5, b6, b7⟩ :=
    foldE_addVSiteFromDict_spec m.virtual_sites
      (m.atoms.foldl addAtomStep { name := m.name })
      (fun v hv => hn2 ▸ hvsites v hv)
  have hn3 : m3.atoms.length = m.atoms.length := by rw [b1]; exact hn2
  obtain ⟨m4, h4, c1, c2, c3, c4, c5, c6, c7⟩ :=
    foldE_addBondStep_spec m.bonds m3
      (fun b hb => hn3 ▸ hbonds b hb)
      (by
        rw [b4, a4]
        simpa using hpair)
  have hn4 : m4.atoms.length = m.atoms.length := by rw [c1]; exact hn3
  have h5 := chargesFromDict_roundtrip m m4 hn4 hcharges
  have hn5 : ({ m4 with partial_charges := m.partial_charges } :
      OFFMol).atoms.length = m.atoms.length := hn4
  have h6 := conformersFromDict_roundtrip m
    { m4 with partial_charges := m.partial_charges } hn5 hconfs
  refine ⟨{ m4 with
    partial_charges := m.partial_charges
    conformers := m.conformers
    properties := m.properties }, ?_, ?_⟩
  · unfold fromDict initializeFromDict
    simp only [hdn, hda, hdv, hdb, hdp]
    simp only [h3, bindE_ok]
    simp only [h4, bindE_ok]
    simp only [h5, bindE_ok]
    simp only [h6, bindE_ok]
  · unfold OFFMol.data
    simp only [MolData.mk.injEq, and_true, true_and]
    refine ⟨?_, ?_, ?_, ?_⟩
    · rw [c2, b2, a2]
    · rw [c1, b1, a1]
      simp
    · rw [c3, b3, a3]
      simp
    · rw [c4, b4, a4]
      simp

/-- A molecule exercising every serialised feature: atoms with varied fields,
one virtual site of each concrete subtype, bonds with stereochemistry and
fractional order, two conformers, partial charges, and properties. -/
def wFull : OFFMol :=
  { name := "full"
    atoms := [⟨6, 0, true, some "R", "C1"⟩, ⟨8, -1, false, none, "O1"⟩,
      ⟨1, 0, false, none, ""⟩, ⟨1, 0, false, none, "H2"⟩]
    virtual_sites := [
      ⟨.bondCharge, [0, 1], some [1/10, -1/10], some 2, some 3,
        some "vs1", 7/10, none, none⟩,
      ⟨.monovalentLonePair, [0, 1, 2], none, none, none, none, 1,
        some 2, some 3⟩,
      ⟨.divalentLonePair, [1, 0, 2], none, none, none, some "d", 1,
        some 0, some 0⟩,
      ⟨.trivalentLonePair, [0, 1, 2, 3], none, none, none, none, 1,
        some 0, some 0⟩]
    bonds := [⟨0, 1, 2, true, some "E", some (3/2)⟩,
      ⟨0, 2, 1, false, none, none⟩, ⟨0, 3, 1, false, none, none⟩]
    properties := [("k", "v")]
    partial_charges := some [1/2, -1/2, 0, 0]
    conformers := some [
      [⟨0, 0, 0⟩, ⟨1, 0, 0⟩, ⟨0, 1, 0⟩, ⟨0, 0, 1⟩],
      [⟨0, 0, 0⟩, ⟨3/2, 0, 0⟩, ⟨0, 3/2, 0⟩, ⟨0, 0, 3/2⟩]] }

theorem fromDict_toDict_roundtrip_witness :
    WF wFull ∧
    ∃ m', fromDict (toDict wFull) = .ok m' ∧ m'.data = wFull.data :=
  ⟨by decide, fromDict_toDict_roundtrip wFull (by decide)⟩

/-! ## `remap` under a permutation mapping.

A bijective `mapping_dict` over `range(n_atoms)` is the intended input of
`FrozenMolecule.remap` (`current_to_new=True`); `permPairs` is such a dict as
the pair list underlying `dict(zip(..))`. -/

/-- The mapping dict `\x7bi : σ(i) for i in range(n)\x7d` as a pair list. -/
def permPairs (n : ℕ) (σ : Equiv.Perm (Fin n)) : List (ℕ × ℕ) :=
  (List.finRange n).map fun i => (i.val, (σ i).val)

/-- `σ` as a total function on `ℕ` (out-of-range inputs map out of range;
they are never consulted). -/
def permFn {n : ℕ} (σ : Equiv.Perm (Fin n)) (k : ℕ) : ℕ :=
  if h : k < n then (σ ⟨k, h⟩).val else n

/-- The atom used only as the (never consulted) out-of-range default of
`List.getD` when describing remapped atom lists. -/
def adefault : AtomSpec :=
  { atomic_number := 0, formal_charge := 0, is_aromatic := false
    stereochemistry := none, name := "" }

/-- The out-of-range `List.getD` default for conformer rows. -/
def vdefault : Vec3 := ⟨0, 0, 0⟩

/-- What the bond loop of `remap` does to one bond's endpoints: map both
through the permutation and sort the resulting pair ascending. -/
def mapBond {n : ℕ} (σ : Equiv.Perm (Fin n)) (b : BondSpec) : BondSpec :=
  { b with
    atom1 := min (permFn σ b.atom1) (permFn σ b.atom2)
    atom2 := max (permFn σ b.atom1) (permFn σ b.atom2) }

theorem permFn_eq {n : ℕ} (σ : Equiv.Perm (Fin n)) (k : ℕ) (h : k < n) :
    permFn σ k = (σ ⟨k, h⟩).val := by
  unfold permFn; rw [dif_pos h]

theorem permFn_lt {n : ℕ} (σ : Equiv.Perm (Fin n)) (k : ℕ) (h : k < n) :
    permFn σ k < n := by
  rw [permFn_eq σ k h]; exact (σ ⟨k, h⟩).isLt

theorem permFn_inv {n : ℕ} (σ : Equiv.Perm (Fin n)) (k : ℕ) (h : k < n) :
    permFn σ.symm (permFn σ k) = k := by
  rw [permFn_eq σ k h, permFn_eq σ.symm _ (σ ⟨k, h⟩).isLt]
  have : (⟨(σ ⟨k, h⟩).val, (σ ⟨k, h⟩).isLt⟩ : Fin n) = σ ⟨k, h⟩ := rfl
  rw [this, Equiv.symm_apply_apply]

theorem permFn_inj {n : ℕ} (σ : Equiv.Perm (Fin n)) (a b : ℕ)
    (ha : a < n) (hb : b < n) (heq : permFn σ a = permFn σ b) : a = b := by
  have := congrArg (permFn σ.symm) heq
  rwa [permFn_inv σ a ha, permFn_inv σ b hb] at this

/-- `dictGet` on a table keyed by an injective function of `Fin n`. -/
theorem dictGet_finTable {n : ℕ} (key val : Fin n → ℕ) (k : ℕ) (i0 : Fin n)
    (huniq : ∀ j : Fin n, key j = k ↔ j = i0) :
    dictGet ((List.finRange n).map fun i => (key i, val i)) k =
      some (val i0) := by
  unfold dictGet
  rw [(List.map_reverse _ _).symm, List.find?_map]
  have hfind : List.find?
      ((fun p : ℕ × ℕ => p.1 == k) ∘ fun i => (key i, val i))
      (List.finRange n).reverse = some i0 := by
    cases h : List.find?
        ((fun p : ℕ × ℕ => p.1 == k) ∘ fun i => (key i, val i))
        (List.finRange n).reverse with
    | none =>
        exfalso
        have hmem : i0 ∈ (List.finRange n).reverse :=
          List.mem_reverse.mpr (List.mem_finRange i0)
        have h2 := List.find?_eq_none.mp h i0 hmem
        apply h2
        simp [Function.comp, (huniq i0).mpr rfl]
    | some j =>
        have hpj := List.find?_some h
        simp only [Function.comp, beq_iff_eq] at hpj
        rw [(huniq j).mp hpj]
  rw [hfind]
  rfl

theorem dictGet_permPairs {n : ℕ} (σ : Equiv.Perm (Fin n)) (k : ℕ)
    (h : k < n) : dictGet (permPairs n σ) k = some (permFn σ k) := by
  rw [permFn_eq σ k h]
  exact dictGet_finTable (fun i => i.val) (fun i => (σ i).val) k ⟨k, h⟩
    (fun j => by constructor
                 · intro hv; exact Fin.ext hv
                 · intro hv; rw [hv])

theorem dictGet_invPermPairs {n : ℕ} (σ : Equiv.Perm (Fin n)) (k : ℕ)
    (h : k < n) :
    dictGet (dictInvert (permPairs n σ)) k = some (permFn σ.symm k) := by
  have hrw : dictInvert (permPairs n σ) =
      (List.finRange n).map fun i => ((σ i).val, i.val) := by
    unfold dictInvert permPairs
    rw [List.map_map]
    rfl
  rw [hrw, permFn_eq σ.symm k h]
  exact dictGet_finTable (fun i => (σ i).val) (fun i => i.val) k
    (σ.symm ⟨k, h⟩)
    (fun j => by
      constructor
      · intro hv
        have hj : σ j = ⟨k, h⟩ := Fin.ext hv
        rw [← hj, Equiv.symm_apply_apply]
      · intro hv; rw [hv]; simp)

/-- `getD` on a list built by mapping over `finRange`. -/
theorem getD_finRange_map {α : Type} (n : ℕ) (g : Fin n → α) (k : ℕ)
    (h : k < n) (d : α) :
    ((List.finRange n).map g).getD k d = g ⟨k, h⟩ := by
  have hlen : k < ((List.finRange n).map g).length := by simp [h]
  rw [List.getD_eq_get _ d hlen]
  simp

/-- Reading every entry of a list back through `getD` reproduces the list. -/
theorem map_getD_finRange {α : Type} (l : List α) (d : α) :
    ((List.finRange l.length).map fun i => l.getD i.val d) = l := by
  have h1 : ((List.finRange l.length).map fun i => l.getD i.val d) =
      (List.finRange l.length).map l.get := by
    apply List.map_congr_left
    intro i _
    exact List.getD_eq_get l d i.isLt
  rw [h1, List.finRange_map_get]

theorem foldE_nil {α β : Type} (f : β → α → Except String β) (acc : β) :
    foldE f acc [] = .ok acc := rfl

theorem foldE_cons {α β : Type} (f : β → α → Except String β) (acc : β)
    (x : α) (xs : List α) :
    foldE f acc (x :: xs) =
      match f acc x with
      | .error e => .error e
      | .ok b => foldE f b xs := rfl

/-- The pure state transformation of one successful re-added bond. -/
def bondStepP (acc : OFFMol) (b : BondSpec) : OFFMol :=
  invalidateCachedProperties { acc with bonds := acc.bonds ++ [b] }

theorem bondStepP_fields (acc : OFFMol) (b : BondSpec) :
    (bondStepP acc b).name = acc.name ∧
    (bondStepP acc b).atoms = acc.atoms ∧
    (bondStepP acc b).virtual_sites = acc.virtual_sites ∧
    (bondStepP acc b).bonds = acc.bonds ++ [b] ∧
    (bondStepP acc b).properties = acc.properties ∧
    (bondStepP acc b).partial_charges = none ∧
    (bondStepP acc b).conformers = none :=
  ⟨rfl, rfl, rfl, rfl, rfl, rfl, rfl⟩

theorem foldl_bondStepP_spec :
    ∀ (l : List BondSpec) (acc : OFFMol),
    (l.foldl bondStepP acc).name = acc.name ∧
    (l.foldl bondStepP acc).atoms = acc.atoms ∧
    (l.foldl bondStepP acc).virtual_sites = acc.virtual_sites ∧
    (l.foldl bondStepP acc).bonds = acc.bonds ++ l ∧
    (l.foldl bondStepP acc).properties = acc.properties ∧
    (l.foldl bondStepP acc).partial_charges =
      (if l.isEmpty then acc.partial_charges else none) ∧
    (l.foldl bondStepP acc).conformers =
      (if l.isEmpty then acc.conformers else none) := by
  intro l
  induction l with
  | nil => intro acc; simp
  | cons x xs ih =>
      intro acc
      obtain ⟨i1, i2, i3, i4, i5, i6, i7⟩ := ih (bondStepP acc x)
      obtain ⟨a1, a2, a3, a4, a5, a6, a7⟩ := bondStepP_fields acc x
      refine ⟨?_, ?_, ?_, ?_, ?_, ?_, ?_⟩ <;>
        simp only [List.foldl_cons, List.isEmpty_cons, Bool.false_eq_true,
          if_false] at *
      · rw [i1, a1]
      · rw [i2, a2]
      · rw [i3, a3]
      · rw [i4, a4]; simp
      · rw [i5, a5]
      · rw [i6]; cases xs.isEmpty <;> simp [a6]
      · rw [i7]; cases xs.isEmpty <;> simp [a7]

theorem remapAtoms_fold (m : OFFMol) (σ : Equiv.Perm (Fin m.atoms.length)) :
    ∀ (l : List (Fin m.atoms.length)) (nm : OFFMol),
    foldE
      (fun acc i =>
        match dictGet (dictInvert (permPairs m.atoms.length σ)) i with
        | none => .error "IndexError: The mapping supplied is missing a relation"
        | some j =>
            match m.atoms.get? j with
            | none =>
                .error "IndexError: The mapping supplied is missing a relation"
            | some a => .ok (addAtomStep acc a))
      nm (l.map Fin.val) =
    .ok ((l.map fun i =>
      m.atoms.getD (permFn σ.symm i.val) adefault).foldl addAtomStep nm) := by
  intro l
  induction l with
  | nil => intro nm; rfl
  | cons i rest ih =>
      intro nm
      rw [List.map_cons, List.map_cons, List.foldl_cons, foldE_cons]
      have hd := dictGet_invPermPairs σ i.val i.isLt
      have hlt : permFn σ.symm i.val < m.atoms.length :=
        permFn_lt σ.symm i.val i.isLt
      have hg : m.atoms.get? (permFn σ.symm i.val) =
          some (m.atoms.getD (permFn σ.symm i.val) adefault) := by
        rw [List.get?_eq_get hlt, List.getD_eq_get m.atoms adefault hlt]
      simp only [hd, hg]
      exact ih (addAtomStep nm (m.atoms.getD (permFn σ.symm i.val) adefault))

/-- The atom loop of `remap` on a bijective mapping is the plain fold of
`addAtomStep` over the permuted atom list. -/
theorem remapAtoms_perm (m : OFFMol) (σ : Equiv.Perm (Fin m.atoms.length))
    (nm : OFFMol) :
    remapAtoms m (dictInvert (permPairs m.atoms.length σ)) nm =
    .ok (((List.finRange m.atoms.length).map fun i =>
      m.atoms.getD (permFn σ.symm i.val) adefault).foldl addAtomStep nm) := by
  have h := remapAtoms_fold m σ (List.finRange m.atoms.length) nm
  rw [List.map_coe_finRange] at h
  exact h

theorem samePair_symm (b1 b2 : BondSpec) (h : samePair b1 b2) :
    samePair b2 b1 := by
  unfold samePair at *
  tauto

/-- Mapping both bonds of a clash through the same permutation cannot create
a clash that was not already there. -/
theorem samePair_mapBond {n : ℕ} (σ : Equiv.Perm (Fin n)) (b1 b2 : BondSpec)
    (h11 : b1.atom1 < n) (h12 : b1.atom2 < n)
    (h21 : b2.atom1 < n) (h22 : b2.atom2 < n)
    (h : samePair (mapBond σ b1) (mapBond σ b2)) : samePair b1 b2 := by
  have e11 : (mapBond σ b1).atom1 =
      min (permFn σ b1.atom1) (permFn σ b1.atom2) := rfl
  have e12 : (mapBond σ b1).atom2 =
      max (permFn σ b1.atom1) (permFn σ b1.atom2) := rfl
  have e21 : (mapBond σ b2).atom1 =
      min (permFn σ b2.atom1) (permFn σ b2.atom2) := rfl
  have e22 : (mapBond σ b2).atom2 =
      max (permFn σ b2.atom1) (permFn σ b2.atom2) := rfl
  unfold samePair at h
  rw [e11, e12, e21, e22] at h
  have hd : (permFn σ b1.atom1 = permFn σ b2.atom1 ∧
      permFn σ b1.atom2 = permFn σ b2.atom2) ∨
      (permFn σ b1.atom1 = permFn σ b2.atom2 ∧
      permFn σ b1.atom2 = permFn σ b2.atom1) := by omega
  unfold samePair
  rcases hd with ⟨ha, hb⟩ | ⟨ha, hb⟩
  · exact Or.inl ⟨permFn_inj σ _ _ h11 h21 ha, permFn_inj σ _ _ h12 h22 hb⟩
  · exact Or.inr ⟨permFn_inj σ _ _ h11 h22 ha, permFn_inj σ _ _ h12 h21 hb⟩

/-- The bond loop of `remap` on a bijective mapping: every re-added bond
passes `_add_bond`'s checks, and the loop is the plain fold of the mapped,
endpoint-sorted bonds. -/
theorem remapBonds_fold {n : ℕ} (σ : Equiv.Perm (Fin n)) :
    ∀ (bs : List BondSpec) (acc : OFFMol),
    acc.atoms.length = n →
    (∀ b ∈ bs, wfBond n b) →
    List.Pairwise (fun b1 b2 => ¬ samePair b1 b2) bs →
    (∀ b ∈ bs, ∀ b' ∈ acc.bonds, ¬ samePair (mapBond σ b) b') →
    foldE
      (fun acc b =>
        match dictGet (permPairs n σ) b.atom1,
            dictGet (permPairs n σ) b.atom2 with
        | some n1, some n2 =>
            (addBond acc (min n1 n2) (max n1 n2) b.bond_order b.is_aromatic
              b.stereochemistry b.fractional_bond_order).map (·.1)
        | _, _ => .error "KeyError")
      acc bs =
    .ok ((bs.map (mapBond σ)).foldl bondStepP acc) := by
  intro bs
  induction bs with
  | nil => intro acc _ _ _ _; rfl
  | cons b rest ih =>
      intro acc hacc hwf hpw hinv
      obtain ⟨hb1, hb2, hb12⟩ := hwf b (List.mem_cons_self b rest)
      have hu1 : permFn σ b.atom1 < n := permFn_lt σ b.atom1 hb1
      have hu2 : permFn σ b.atom2 < n := permFn_lt σ b.atom2 hb2
      have hmin : min (permFn σ b.atom1) (permFn σ b.atom2) <
          acc.atoms.length := by rw [hacc]; omega
      have hmax : max (permFn σ b.atom1) (permFn σ b.atom2) <
          acc.atoms.length := by rw [hacc]; omega
      have hne : ¬ (min (permFn σ b.atom1) (permFn σ b.atom2) =
          max (permFn σ b.atom1) (permFn σ b.atom2)) := by
        intro heq
        have : permFn σ b.atom1 = permFn σ b.atom2 := by omega
        exact hb12 (permFn_inj σ _ _ hb1 hb2 this)
      have hnb : isBondedTo acc (min (permFn σ b.atom1) (permFn σ b.atom2))
          (max (permFn σ b.atom1) (permFn σ b.atom2)) = false := by
        cases hx : isBondedTo acc (min (permFn σ b.atom1) (permFn σ b.atom2))
            (max (permFn σ b.atom1) (permFn σ b.atom2)) with
        | false => rfl
        | true =>
            exfalso
            obtain ⟨b', hb', hpair⟩ := (isBondedTo_iff acc _ _).mp hx
            apply hinv b (List.mem_cons_self b rest) b' hb'
            unfold samePair
            have e1 : (mapBond σ b).atom1 =
                min (permFn σ b.atom1) (permFn σ b.atom2) := rfl
            have e2 : (mapBond σ b).atom2 =
                max (permFn σ b.atom1) (permFn σ b.atom2) := rfl
            rw [e1, e2]
            omega
      have hstep : (addBond acc (min (permFn σ b.atom1) (permFn σ b.atom2))
          (max (permFn σ b.atom1) (permFn σ b.atom2)) b.bond_order
          b.is_aromatic b.stereochemistry b.fractional_bond_order).map
          (·.1) = .ok (bondStepP acc (mapBond σ b)) := by
        unfold addBond
        rw [if_pos hmin, if_pos hmax, if_neg hne, if_neg (by simp [hnb])]
        rfl
      rw [foldE_cons]
      have hd1 := dictGet_permPairs σ b.atom1 hb1
      have hd2 := dictGet_permPairs σ b.atom2 hb2
      simp only [hd1, hd2, hstep]
      rw [List.map_cons, List.foldl_cons]
      exact ih (bondStepP acc (mapBond σ b)) hacc
        (fun x hx => hwf x (List.mem_cons_of_mem b hx))
        ((List.pairwise_cons.mp hpw).2)
        (fun b2 hb2m b' hb'm => by
          have hb2w := hwf b2 (List.mem_cons_of_mem b hb2m)
          rcases List.mem_append.mp hb'm with hold | hnew
          · exact hinv b2 (List.mem_cons_of_mem b hb2m) b' hold
          · intro hsp
            have hb'eq : b' = mapBond σ b := List.mem_singleton.mp hnew
            rw [hb'eq] at hsp
            have := samePair_mapBond σ b2 b hb2w.1 hb2w.2.1 hb1 hb2 hsp
            exact (List.pairwise_cons.mp hpw).1 b2 hb2m
              (samePair_symm b2 b this))

theorem permuteListGo_perm {α : Type} {n : ℕ} (σ : Equiv.Perm (Fin n))
    (xs : List α) (hlen : xs.length = n) (d : α) :
    ∀ l : List (Fin n),
    permuteListGo (dictInvert (permPairs n σ)) xs (l.map Fin.val) =
    .ok (l.map fun i => xs.getD (permFn σ.symm i.val) d) := by
  intro l
  induction l with
  | nil => rfl
  | cons i rest ih =>
      rw [List.map_cons, List.map_cons]
      have hlt : permFn σ.symm i.val < xs.length := by
        rw [hlen]; exact permFn_lt σ.symm i.val i.isLt
      have hg : xs.get? (permFn σ.symm i.val) =
          some (xs.getD (permFn σ.symm i.val) d) := by
        rw [List.get?_eq_get hlt, List.getD_eq_get xs d hlt]
      have hlook : lookupPermuted (dictInvert (permPairs n σ)) xs i.val =
          .ok (xs.getD (permFn σ.symm i.val) d) := by
        unfold lookupPermuted
        simp only [dictGet_invPermPairs σ i.val i.isLt, hg]
      simp only [permuteListGo, hlook, ih]
      rfl

theorem permuteList_perm {α : Type} {n : ℕ} (σ : Equiv.Perm (Fin n))
    (xs : List α) (hlen : xs.length = n) (d : α) :
    permuteList (dictInvert (permPairs n σ)) n xs =
    .ok ((List.finRange n).map fun i =>
      xs.getD (permFn σ.symm i.val) d) := by
  have h := permuteListGo_perm σ xs hlen d (List.finRange n)
  rw [List.map_coe_finRange] at h
  exact h

/-- On an assigned charge array, one subscript of the charge loop is the
generic permuted-element lookup. -/
theorem chargeSubscript_some (cs : List ℚ) (n2c : List (ℕ × ℕ)) (i : ℕ) :
    chargeSubscript (some cs) n2c i = lookupPermuted n2c cs i := by
  unfold chargeSubscript lookupPermuted
  cases hd : dictGet n2c i with
  | none => simp only [hd]
  | some j =>
      simp only [hd]
      cases hg : cs.get? j with
      | none => simp only [hg]
      | some v => simp only [hg]

/-- On an assigned charge array, the charge loop is the generic permuting
loop. -/
theorem remapChargesGo_some (cs : List ℚ) (n2c : List (ℕ × ℕ)) :
    ∀ l : List ℕ,
    remapChargesGo (some cs) n2c l = permuteListGo n2c cs l := by
  intro l
  induction l with
  | nil => rfl
  | cons i rest ih =>
      cases hs : chargeSubscript (some cs) n2c i with
      | error e =>
          have hl : lookupPermuted n2c cs i = .error e := by
            rw [← chargeSubscript_some]; exact hs
          simp only [remapChargesGo, permuteListGo, hs, hl]
      | ok v =>
          have hl : lookupPermuted n2c cs i = .ok v := by
            rw [← chargeSubscript_some]; exact hs
          simp only [remapChargesGo, permuteListGo, hs, hl, ih]

/-- The charge step of `remap` on a molecule whose charges are assigned. -/
theorem remapCharges_perm {n : ℕ} (σ : Equiv.Perm (Fin n)) (m nm : OFFMol)
    (cs : List ℚ) (h3 : m.partial_charges = some cs) (h4 : cs.length = n)
    (hma : m.atoms.length = n) (hnm : nm.atoms.length = n) :
    ∃ C, remapCharges m (dictInvert (permPairs n σ)) nm = .ok C ∧
      C.name = nm.name ∧ C.atoms = nm.atoms ∧
      C.virtual_sites = nm.virtual_sites ∧ C.bonds = nm.bonds ∧
      C.properties = nm.properties ∧
      C.partial_charges = some ((List.finRange n).map fun i =>
        cs.getD (permFn σ.symm i.val) 0) ∧
      C.conformers = nm.conformers := by
  have hgo : remapChargesGo m.partial_charges (dictInvert (permPairs n σ))
      (List.range m.atoms.length) =
      .ok ((List.finRange n).map fun i =>
        cs.getD (permFn σ.symm i.val) 0) := by
    rw [h3, hma, remapChargesGo_some]
    exact permuteList_perm σ cs h4 0
  have hiflen : ((List.finRange n).map fun i =>
      cs.getD (permFn σ.symm i.val) 0).length = nm.atoms.length := by
    simp [hnm]
  refine ⟨{ nm with partial_charges := some ((List.finRange n).map fun i =>
    cs.getD (permFn σ.symm i.val) 0) }, ?_, rfl, rfl, rfl, rfl, rfl, rfl,
    rfl⟩
  unfold remapCharges
  simp only [hgo, if_pos hiflen]

/-- The conformer loop of `remap` on a bijective mapping. -/
theorem remapConfs_fold {n : ℕ} (σ : Equiv.Perm (Fin n)) (m : OFFMol)
    (hma : m.atoms.length = n) :
    ∀ (confs : List (List Vec3)) (acc : OFFMol),
    acc.atoms.length = n →
    (∀ c ∈ confs, c.length = n) →
    foldE
      (fun acc conf =>
        match permuteList (dictInvert (permPairs n σ)) m.atoms.length conf
            with
        | .error e => .error e
        | .ok rows => (addConformer acc rows).map (·.1))
      acc confs =
    .ok (if confs.isEmpty then acc else
      { acc with conformers := some (acc.conformers.getD [] ++
        confs.map fun c => (List.finRange n).map fun i =>
          c.getD (permFn σ.symm i.val) vdefault) }) := by
  intro confs
  induction confs with
  | nil => intro acc _ _; rfl
  | cons c rest ih =>
      intro acc hacc hrows
      rw [foldE_cons]
      have hperm : permuteList (dictInvert (permPairs n σ)) m.atoms.length c
          = .ok ((List.finRange n).map fun i =>
            c.getD (permFn σ.symm i.val) vdefault) := by
        rw [hma]
        exact permuteList_perm σ c (hrows c (List.mem_cons_self c rest)) _
      have hlen : ((List.finRange n).map fun i =>
          c.getD (permFn σ.symm i.val) vdefault).length =
          acc.atoms.length := by simp [hacc]
      have hadd : (addConformer acc ((List.finRange n).map fun i =>
          c.getD (permFn σ.symm i.val) vdefault)).map (·.1) =
          .ok { acc with conformers := some (acc.conformers.getD [] ++
            [(List.finRange n).map fun i =>
              c.getD (permFn σ.symm i.val) vdefault]) } := by
        unfold addConformer
        rw [if_pos hlen]
        rfl
      simp only [hperm, hadd]
      have ihr := ih { acc with conformers := some (acc.conformers.getD [] ++
          [(List.finRange n).map fun i =>
            c.getD (permFn σ.symm i.val) vdefault]) } hacc
        (fun x hx => hrows x (List.mem_cons_of_mem c hx))
      rw [ihr]
      rcases rest with _ | ⟨c2, rest2⟩
      · rfl
      · simp only [List.isEmpty_cons, Bool.false_eq_true, if_false,
          List.map_cons]
        simp [Option.getD]

/-- The conformer step of `remap` on a bijective mapping, for a fresh
molecule (no conformers yet, as `remap` always produces). -/
theorem remapConformers_perm {n : ℕ} (σ : Equiv.Perm (Fin n))
    (m nm : OFFMol) (hma : m.atoms.length = n) (hnm : nm.atoms.length = n)
    (hn0 : nm.conformers = none)
    (h7 : ∀ c ∈ m.conformers.getD [], c.length = n) :
    ∃ D, remapConformers m (dictInvert (permPairs n σ)) nm = .ok D ∧
      D.name = nm.name ∧ D.atoms = nm.atoms ∧
      D.virtual_sites = nm.virtual_sites ∧ D.bonds = nm.bonds ∧
      D.properties = nm.properties ∧
      D.partial_charges = nm.partial_charges ∧
      D.conformers = (if (m.conformers.getD []).isEmpty then none else
        some ((m.conformers.getD []).map fun c =>
          (List.finRange n).map fun i =>
            c.getD (permFn σ.symm i.val) vdefault)) := by
  unfold remapConformers
  cases hcf : m.conformers with
  | none =>
      refine ⟨nm, rfl, rfl, rfl, rfl, rfl, rfl, rfl, ?_⟩
      simp [hn0]
  | some confs =>
      have h7' : ∀ c ∈ confs, c.length = n := by
        rw [hcf] at h7
        simpa using h7
      have hfold := remapConfs_fold σ m hma confs nm hnm h7'
      rcases confs with _ | ⟨c0, rest⟩
      · exact ⟨nm, hfold, rfl, rfl, rfl, rfl, rfl, rfl, by simp [hn0]⟩
      · rw [hn0] at hfold
        simp only [List.isEmpty_cons, Bool.false_eq_true, if_false,
          Option.getD_none, List.nil_append] at hfold
        refine ⟨_, hfold, rfl, rfl, rfl, rfl, rfl, rfl, ?_⟩
        simp

/-- The body of `remap` (with `current_to_new` true) as the composition of
its four successful steps, with the properties reference copied last. -/
theorem remap_eval (m : OFFMol) (mapping : List (ℕ × ℕ))
    (nm1 nm2 C D : OFFMol)
    (h0 : m.virtual_sites.length = 0)
    (hlen : mapping.length = m.atoms.length)
    (ha : remapAtoms m (dictInvert mapping) { name := m.name } = .ok nm1)
    (hb : remapBonds m mapping nm1 = .ok nm2)
    (hc : remapCharges m (dictInvert mapping)
      { nm2 with bonds := sortBonds nm2.bonds } = .ok C)
    (hd : remapConformers m (dictInvert mapping) C = .ok D) :
    remap m mapping true = .ok { D with properties := m.properties } := by
  unfold remap
  rw [if_neg (by simp [h0]), if_neg (by simp [hlen])]
  simp only [if_true, ha, hb, hc, hd]

/-- `remap` on a bijective `current_to_new` mapping of a virtual-site-free,
charge-assigned molecule succeeds, and every field of the result is the
correspondingly permuted original field. -/
theorem remap_perm_spec (m : OFFMol) (n : ℕ) (σ : Equiv.Perm (Fin n))
    (cs : List ℚ)
    (h1 : m.atoms.length = n) (h2 : m.virtual_sites = [])
    (h3 : m.partial_charges = some cs) (h4 : cs.length = n)
    (h5 : ∀ b ∈ m.bonds, wfBond n b)
    (h6 : List.Pairwise (fun b1 b2 => ¬ samePair b1 b2) m.bonds)
    (h7 : ∀ c ∈ m.conformers.getD [], c.length = n) :
    ∃ M, remap m (permPairs n σ) true = .ok M ∧
      M.name = m.name ∧
      M.atoms = ((List.finRange n).map fun i =>
        m.atoms.getD (permFn σ.symm i.val) adefault) ∧
      M.virtual_sites = [] ∧
      M.bonds = sortBonds (m.bonds.map (mapBond σ)) ∧
      M.properties = m.properties ∧
      M.partial_charges = some ((List.finRange n).map fun i =>
        cs.getD (permFn σ.symm i.val) 0) ∧
      M.conformers = (if (m.conformers.getD []).isEmpty then none else
        some ((m.conformers.getD []).map fun c =>
          (List.finRange n).map fun i =>
            c.getD (permFn σ.symm i.val) vdefault)) := by
  subst h1
  have hA := remapAtoms_perm m σ { name := m.name }
  obtain ⟨a1, a2, a3, a4, a5, a6, a7⟩ :=
    foldl_addAtomStep_spec ((List.finRange m.atoms.length).map fun i =>
      m.atoms.getD (permFn σ.symm i.val) adefault) { name := m.name }
  generalize hgA : (((List.finRange m.atoms.length).map fun i =>
      m.atoms.getD (permFn σ.symm i.val) adefault).foldl addAtomStep
      { name := m.name } : OFFMol) = A at hA a1 a2 a3 a4 a5 a6 a7
  have hAname : A.name = m.name := by rw [a2]
  have hAatoms : A.atoms = (List.finRange m.atoms.length).map fun i =>
      m.atoms.getD (permFn σ.symm i.val) adefault := by
    rw [a1]; rfl
  have hAvs : A.virtual_sites = [] := by rw [a3]
  have hAbonds : A.bonds = [] := by rw [a4]
  have hAlen : A.atoms.length = m.atoms.length := by rw [hAatoms]; simp
  have hAconf : A.conformers = none := by rw [a7]; simp
  have hB2 : remapBonds m (permPairs m.atoms.length σ) A =
      .ok ((m.bonds.map (mapBond σ)).foldl bondStepP A) :=
    remapBonds_fold σ m.bonds A hAlen h5 h6
      (fun b _ b' hb' => by
        rw [hAbonds] at hb'
        exact absurd hb' (List.not_mem_nil b'))
  obtain ⟨b1, b2, b3, b4, b5, b6, b7⟩ :=
    foldl_bondStepP_spec (m.bonds.map (mapBond σ)) A
  generalize hgB : (((m.bonds.map (mapBond σ)).foldl bondStepP A) : OFFMol)
      = B at hB2 b1 b2 b3 b4 b5 b6 b7
  have hBname : B.name = m.name := by rw [b1]; exact hAname
  have hBatoms : B.atoms = (List.finRange m.atoms.length).map fun i =>
      m.atoms.getD (permFn σ.symm i.val) adefault := by
    rw [b2]; exact hAatoms
  have hBvs : B.virtual_sites = [] := by rw [b3]; exact hAvs
  have hBbonds : B.bonds = m.bonds.map (mapBond σ) := by
    rw [b4, hAbonds]; rfl
  have hBlen : B.atoms.length = m.atoms.length := by rw [b2]; exact hAlen
  have hBconf : B.conformers = none := by
    rw [b7]
    cases (m.bonds.map (mapBond σ)).isEmpty <;> simp [hAconf]
  obtain ⟨C, hC, c1, c2, c3, c4, c5, c6, c7⟩ :=
    remapCharges_perm σ m { B with bonds := sortBonds B.bonds } cs h3 h4 rfl
      (by show B.atoms.length = _; exact hBlen)
  have hCname : C.name = m.name := by rw [c1]; exact hBname
  have hCatoms : C.atoms = (List.finRange m.atoms.length).map fun i =>
      m.atoms.getD (permFn σ.symm i.val) adefault := by
    rw [c2]; exact hBatoms
  have hCvs : C.virtual_sites = [] := by rw [c3]; exact hBvs
  have hCbonds : C.bonds = sortBonds (m.bonds.map (mapBond σ)) := by
    rw [c4]; show sortBonds B.bonds = _; rw [hBbonds]
  have hCconf : C.conformers = none := by rw [c7]; exact hBconf
  have hClen : C.atoms.length = m.atoms.length := by rw [hCatoms]; simp
  obtain ⟨D, hD, d1, d2, d3, d4, d5, d6, d7⟩ :=
    remapConformers_perm σ m C rfl hClen hCconf h7
  refine ⟨{ D with properties := m.properties },
    remap_eval m (permPairs m.atoms.length σ) A B C D
      (by rw [h2]; rfl) (by simp [permPairs]) hA hB2 hC hD,
    ?_, ?_, ?_, ?_, ?_, ?_, ?_⟩
  · show D.name = m.name
    rw [d1]; exact hCname
  · show D.atoms = _
    rw [d2]; exact hCatoms
  · show D.virtual_sites = []
    rw [d3]; exact hCvs
  · show D.bonds = _
    rw [d4]; exact hCbonds
  · rfl
  · show D.partial_charges = _
    rw [d6, c6]
  · show D.conformers = _
    exact d7

/-- Reorienting a bond's endpoint pair ascending (what a round trip through
two mutually inverse `remap`s does to each bond). -/
def reorientB (b : BondSpec) : BondSpec :=
  { b with atom1 := min b.atom1 b.atom2, atom2 := max b.atom1 b.atom2 }

theorem wfBond_mapBond {n : ℕ} (σ : Equiv.Perm (Fin n)) (b : BondSpec)
    (h : wfBond n b) : wfBond n (mapBond σ b) := by
  obtain ⟨hb1, hb2, hb12⟩ := h
  have hu1 : permFn σ b.atom1 < n := permFn_lt σ b.atom1 hb1
  have hu2 : permFn σ b.atom2 < n := permFn_lt σ b.atom2 hb2
  have e1 : (mapBond σ b).atom1 =
      min (permFn σ b.atom1) (permFn σ b.atom2) := rfl
  have e2 : (mapBond σ b).atom2 =
      max (permFn σ b.atom1) (permFn σ b.atom2) := rfl
  refine ⟨?_, ?_, ?_⟩
  · rw [e1]; omega
  · rw [e2]; omega
  · rw [e1, e2]
    intro heq
    have : permFn σ b.atom1 = permFn σ b.atom2 := by omega
    exact hb12 (permFn_inj σ _ _ hb1 hb2 this)

/-- Mapping a bond through `σ` and then through `σ.symm` reorients its
endpoint pair ascending and changes nothing else. -/
theorem mapBond_mapBond {n : ℕ} (σ : Equiv.Perm (Fin n)) (b : BondSpec)
    (hb1 : b.atom1 < n) (hb2 : b.atom2 < n) :
    mapBond σ.symm (mapBond σ b) = reorientB b := by
  have hu1 : permFn σ b.atom1 < n := permFn_lt σ b.atom1 hb1
  have hu2 : permFn σ b.atom2 < n := permFn_lt σ b.atom2 hb2
  have hi1 : permFn σ.symm (permFn σ b.atom1) = b.atom1 :=
    permFn_inv σ b.atom1 hb1
  have hi2 : permFn σ.symm (permFn σ b.atom2) = b.atom2 :=
    permFn_inv σ b.atom2 hb2
  cases b with
  | mk a1 a2 bo ar st fbo =>
      simp only [mapBond, reorientB] at *
      rcases le_total (permFn σ a1) (permFn σ a2) with h | h
      · rw [min_eq_left h, max_eq_right h, hi1, hi2]
      · rw [min_eq_right h, max_eq_left h, hi1, hi2]
        rw [Nat.min_comm, Nat.max_comm]

/-- Reorienting a bond does not change whether it joins a given unordered
atom pair. -/
theorem matchesB_reorient (i j : ℕ) (b : BondSpec) :
    (((reorientB b).atom1 == i && (reorientB b).atom2 == j) ||
      ((reorientB b).atom1 == j && (reorientB b).atom2 == i)) =
    ((b.atom1 == i && b.atom2 == j) || (b.atom1 == j && b.atom2 == i)) := by
  apply Bool.coe_iff_coe.mp
  have e1 : (reorientB b).atom1 = min b.atom1 b.atom2 := rfl
  have e2 : (reorientB b).atom2 = max b.atom1 b.atom2 := rfl
  simp only [e1, e2, Bool.or_eq_true, Bool.and_eq_true, beq_iff_eq]
  omega

/-- Two bonds joining the same unordered pair `(i, j)` clash. -/
theorem samePair_of_matches (i j : ℕ) (b b' : BondSpec)
    (hb : ((b.atom1 == i && b.atom2 == j) ||
      (b.atom1 == j && b.atom2 == i)) = true)
    (hb' : ((b'.atom1 == i && b'.atom2 == j) ||
      (b'.atom1 == j && b'.atom2 == i)) = true) : samePair b b' := by
  simp only [Bool.or_eq_true, Bool.and_eq_true, beq_iff_eq] at hb hb'
  unfold samePair
  omega

theorem find?_eq_of_unique {α : Type} (p : α → Bool) (l : List α) (x : α)
    (hx : x ∈ l) (hpx : p x = true)
    (hu : ∀ y ∈ l, p y = true → y = x) : l.find? p = some x := by
  cases h : l.find? p with
  | none => exact absurd hpx (List.find?_eq_none.mp h x hx)
  | some y =>
      rw [hu y (List.mem_of_find?_eq_some h) (List.find?_some h)]

/-- A duplicate-free bond list and any permutation of its reorientation
describe the same labelled edges. -/
theorem edgeLabelAt_perm (m M : OFFMol)
    (hperm : List.Perm M.bonds (m.bonds.map reorientB))
    (hpw : List.Pairwise (fun b1 b2 => ¬ samePair b1 b2) m.bonds)
    (i j : ℕ) : edgeLabelAt M i j = edgeLabelAt m i j := by
  have hsymm : ∀ x y : BondSpec, ¬ samePair x y → ¬ samePair y x :=
    fun x y h hs => h (samePair_symm y x hs)
  unfold edgeLabelAt
  by_cases hex : ∃ b ∈ m.bonds, ((b.atom1 == i && b.atom2 == j) ||
      (b.atom1 == j && b.atom2 == i)) = true
  · obtain ⟨b, hbmem, hbp⟩ := hex
    have huniq : ∀ y ∈ m.bonds, ((y.atom1 == i && y.atom2 == j) ||
        (y.atom1 == j && y.atom2 == i)) = true → y = b := by
      intro y hy hpy
      by_contra hne
      exact hpw.forall (fun {x y} h => hsymm x y h) hy hbmem hne
        (samePair_of_matches i j y b hpy hbp)
    have hfm : (m.bonds.find? fun b =>
        (b.atom1 == i && b.atom2 == j) || (b.atom1 == j && b.atom2 == i)) =
        some b := find?_eq_of_unique _ _ b hbmem hbp huniq
    have hmem2 : reorientB b ∈ M.bonds :=
      hperm.mem_iff.mpr (List.mem_map_of_mem reorientB hbmem)
    have hp2 : (((reorientB b).atom1 == i && (reorientB b).atom2 == j) ||
        ((reorientB b).atom1 == j && (reorientB b).atom2 == i)) = true := by
      rw [matchesB_reorient]; exact hbp
    have huniq2 : ∀ y ∈ M.bonds, ((y.atom1 == i && y.atom2 == j) ||
        (y.atom1 == j && y.atom2 == i)) = true → y = reorientB b := by
      intro y hy hpy
      obtain ⟨b0, hb0mem, hb0eq⟩ := List.mem_map.mp (hperm.mem_iff.mp hy)
      rw [hb0eq.symm] at hpy
      rw [matchesB_reorient] at hpy
      rw [← hb0eq, huniq b0 hb0mem hpy]
    have hfM : (M.bonds.find? fun b =>
        (b.atom1 == i && b.atom2 == j) || (b.atom1 == j && b.atom2 == i)) =
        some (reorientB b) :=
      find?_eq_of_unique _ _ (reorientB b) hmem2 hp2 huniq2
    rw [hfm, hfM]
    rfl
  · push_neg at hex
    have h1 : (m.bonds.find? fun b =>
        (b.atom1 == i && b.atom2 == j) || (b.atom1 == j && b.atom2 == i)) =
        none := by
      apply List.find?_eq_none.mpr
      intro x hx hpx
      exact absurd hpx (by simpa using hex x hx)
    have h2 : (M.bonds.find? fun b =>
        (b.atom1 == i && b.atom2 == j) || (b.atom1 == j && b.atom2 == i)) =
        none := by
      apply List.find?_eq_none.mpr
      intro y hy hpy
      obtain ⟨b0, hb0mem, hb0eq⟩ := List.mem_map.mp (hperm.mem_iff.mp hy)
      rw [hb0eq.symm, matchesB_reorient] at hpy
      exact absurd hpy (by simpa using hex b0 hb0mem)
    rw [h1, h2]

/-- C7 (amended): for every molecule with `n` atoms, no virtual sites, and
partial charges assigned, and every permutation `σ` of `[0, n)` supplied as a
`current_to_new` mapping dict, `remap(σ)` followed by `remap(σ⁻¹)` succeeds
and reproduces a molecule whose atom list — every per-atom field, in the
original order — equals the original's, and which `are_isomorphic` (all
matching flags at their defaults) reports isomorphic to the original.  (The
unamended claim, quantified over all molecules including charge-free ones, is
refuted by `remap_roundtrip_counterexample`.) -/
theorem remap_roundtrip_isomorphic (m : OFFMol) (n : ℕ)
    (σ : Equiv.Perm (Fin n)) (cs : List ℚ)
    (h1 : m.atoms.length = n) (h2 : m.virtual_sites = [])
    (h3 : m.partial_charges = some cs) (h4 : cs.length = n)
    (h5 : ∀ b ∈ m.bonds, wfBond n b)
    (h6 : List.Pairwise (fun b1 b2 => ¬ samePair b1 b2) m.bonds)
    (h7 : ∀ c ∈ m.conformers.getD [], c.length = n) :
    ∃ M1 M2, remap m (permPairs n σ) true = .ok M1 ∧
      remap M1 (permPairs n σ.symm) true = .ok M2 ∧
      M2.atoms = m.atoms ∧
      are_isomorphic {} false M2 m = (true, none) := by
  subst h1
  obtain ⟨M1, hM1, m1name, m1atoms, m1vs, m1bonds, m1props, m1charges,
    m1conf⟩ := remap_perm_spec m m.atoms.length σ cs rfl h2 h3 h4 h5 h6 h7
  have hM1len : M1.atoms.length = m.atoms.length := by rw [m1atoms]; simp
  have h5x : ∀ b ∈ M1.bonds, wfBond m.atoms.length b := by
    intro b hb
    rw [m1bonds] at hb
    have hb2 : b ∈ m.bonds.map (mapBond σ) :=
      (List.perm_insertionSort _ _).mem_iff.mp hb
    obtain ⟨b0, hb0, hb0eq⟩ := List.mem_map.mp hb2
    rw [← hb0eq]
    exact wfBond_mapBond σ b0 (h5 b0 hb0)
  have h6x : List.Pairwise (fun b1 b2 => ¬ samePair b1 b2) M1.bonds := by
    rw [m1bonds]
    refine ((List.perm_insertionSort _ _).pairwise_iff
      (fun h hs => h (samePair_symm _ _ hs))).mpr ?_
    rw [List.pairwise_map]
    have h6m := List.Pairwise.and_mem.mp h6
    exact h6m.imp (fun hr hsp => hr.2.2 (samePair_mapBond σ _ _
      (h5 _ hr.1).1 (h5 _ hr.1).2.1 (h5 _ hr.2.1).1 (h5 _ hr.2.1).2.1 hsp))
  have h7x : ∀ c ∈ M1.conformers.getD [], c.length = m.atoms.length := by
    intro c hc
    rw [m1conf] at hc
    by_cases hE : (m.conformers.getD []).isEmpty = true
    · rw [if_pos hE] at hc
      simp at hc
    · rw [if_neg hE] at hc
      simp only [Option.getD_some] at hc
      obtain ⟨c0, _, hc0eq⟩ := List.mem_map.mp hc
      rw [← hc0eq]
      simp
  obtain ⟨M2, hM2, m2name, m2atoms, m2vs, m2bonds, m2props, m2charges,
    m2conf⟩ := remap_perm_spec M1 m.atoms.length σ.symm
      ((List.finRange m.atoms.length).map fun i =>
        cs.getD (permFn σ.symm i.val) 0)
      hM1len m1vs m1charges (by simp) h5x h6x h7x
  simp only [Equiv.symm_symm] at m2atoms m2bonds
  have hatoms2 : M2.atoms = m.atoms := by
    rw [m2atoms]
    have hcongr : ∀ i ∈ List.finRange m.atoms.length,
        M1.atoms.getD (permFn σ i.val) adefault =
        m.atoms.getD i.val adefault := by
      intro i _
      rw [m1atoms]
      rw [getD_finRange_map m.atoms.length _ (permFn σ i.val)
        (permFn_lt σ i.val i.isLt) adefault]
      show m.atoms.getD (permFn σ.symm (permFn σ i.val)) adefault =
        m.atoms.getD i.val adefault
      rw [permFn_inv σ i.val i.isLt]
    rw [List.map_congr_left hcongr]
    exact map_getD_finRange m.atoms adefault
  have hperm : List.Perm M2.bonds (m.bonds.map reorientB) := by
    have p1 : List.Perm M2.bonds (M1.bonds.map (mapBond σ.symm)) := by
      rw [m2bonds]
      exact List.perm_insertionSort _ _
    have p2 : List.Perm M1.bonds (m.bonds.map (mapBond σ)) := by
      rw [m1bonds]
      exact List.perm_insertionSort _ _
    have p3 : List.Perm (M1.bonds.map (mapBond σ.symm))
        ((m.bonds.map (mapBond σ)).map (mapBond σ.symm)) :=
      p2.map (mapBond σ.symm)
    have p4 : (m.bonds.map (mapBond σ)).map (mapBond σ.symm) =
        m.bonds.map reorientB := by
      rw [List.map_map]
      apply List.map_congr_left
      intro b hb
      show mapBond σ.symm (mapBond σ b) = reorientB b
      exact mapBond_mapBond σ b (h5 b hb).1 (h5 b hb).2.1
    rw [p4] at p3
    exact p1.trans p3
  have hedge : ∀ i j : ℕ, edgeLabelAt M2 i j = edgeLabelAt m i j :=
    edgeLabelAt_perm m M2 hperm h6
  have hlen2 : M2.atoms.length = m.atoms.length := by rw [hatoms2]
  have hiso : IsIsomorphicTo {} M2 m := by
    refine ⟨finCongr hlen2, fun i => ?_, fun i j => ?_⟩
    · have hlab : nodeLabelAt M2 i = nodeLabelAt m (finCongr hlen2 i) := by
        unfold nodeLabelAt
        congr 1
        rw [List.get_of_eq hatoms2 i]
        congr 1
      rw [hlab]
      exact nodeMatch_refl {} _
    · have hv1 : ((finCongr hlen2) i).val = i.val := by simp
      have hv2 : ((finCongr hlen2) j).val = j.val := by simp
      rw [hv1, hv2, hedge i.val j.val]
      exact edgeOptMatch_refl {} _
  refine ⟨M1, M2, hM1, hM2, hatoms2, ?_⟩
  unfold are_isomorphic
  have hhill : toHillFormula M2 = toHillFormula m := by
    unfold toHillFormula
    rw [hatoms2]
  rw [if_neg (by simp [hhill])]
  simp only [decide_eq_true hiso, Bool.and_false, Bool.false_eq_true,
    if_false]

/-- A molecule whose partial charges were never computed. -/
def wChargeless : OFFMol := { atoms := [⟨6, 0, false, none, ""⟩] }

/-- C7 (counterexample to the unamended claim): a one-atom molecule with no
virtual sites whose charges were never assigned, remapped by the identity
permutation over `[0, 1)`.  The claim promises `remap(mapping)` followed by
`remap(inverse(mapping))` reproduces an isomorphic molecule; instead the very
first `remap` raises (`self._partial_charges[new_to_cur[i]]` subscripts
`None`), so no remapped molecule exists at all. -/
theorem remap_roundtrip_counterexample :
    wChargeless.virtual_sites = [] ∧
    wChargeless.partial_charges = none ∧
    permPairs 1 (Equiv.refl (Fin 1)) = [(0, 0)] ∧
    remap wChargeless (permPairs 1 (Equiv.refl (Fin 1))) true =
      .error "TypeError: NoneType object is not subscriptable" :=
  ⟨rfl, rfl, by decide, by decide⟩

/-- A three-atom, two-bond, charged molecule with one conformer, exercising
the amended round-trip statement (one bond is stored with descending
endpoint indices). -/
def wPerm3 : OFFMol :=
  { name := "w"
    atoms := [⟨6, 0, false, none, "C1"⟩, ⟨8, 0, false, none, "O1"⟩,
      ⟨1, 0, false, none, "H1"⟩]
    bonds := [⟨2, 0, 1, false, none, none⟩, ⟨0, 1, 2, true, some "Z", none⟩]
    properties := [("p", "q")]
    partial_charges := some [1, -1, 0]
    conformers := some [[⟨0, 0, 0⟩, ⟨1, 0, 0⟩, ⟨0, 1, 0⟩]] }

def c7σ : Equiv.Perm (Fin 3) := Equiv.swap 0 1

theorem remap_roundtrip_isomorphic_witness :
    (wPerm3.atoms.length = 3 ∧ wPerm3.virtual_sites = [] ∧
     wPerm3.partial_charges = some [1, -1, 0] ∧
     ([1, -1, 0] : List ℚ).length = 3 ∧
     (∀ b ∈ wPerm3.bonds, wfBond 3 b) ∧
     List.Pairwise (fun b1 b2 => ¬ samePair b1 b2) wPerm3.bonds ∧
     (∀ c ∈ wPerm3.conformers.getD [], c.length = 3)) ∧
    ∃ M1 M2, remap wPerm3 (permPairs 3 c7σ) true = .ok M1 ∧
      remap M1 (permPairs 3 c7σ.symm) true = .ok M2 ∧
      M2.atoms = wPerm3.atoms ∧
      are_isomorphic {} false M2 wPerm3 = (true, none) :=
  ⟨⟨rfl, rfl, rfl, rfl, by decide, by decide, by decide⟩,
   remap_roundtrip_isomorphic wPerm3 3 c7σ [1, -1, 0] rfl rfl rfl rfl
     (by decide) (by decide) (by decide)⟩

end OpenFF
